import Mathlib

/-!
Verification model of the dehum_assistant streaming tool-orchestration
service (src/python-ai-service).  The Python source is embedded shallowly:

* a small JSON value type models the dict/list/str/num values that flow
  through tool arguments, tool results and the per-session tool cache
  (numbers are modelled as integers; the claims under study never depend
  on float formatting);
* the two cache-key builders are embedded exactly: main.py invoke_tool
  uses json.dumps(args, sort_keys=True) with the Python default
  separators, tool_executor._make_tool_key passes separators=(",", ":");
* invoke_tool, finalize_tool_calls, stream_tools_phase and
  process_chat_streaming from main.py are embedded as pure functions over
  an explicit session state, with the LLM modelled as an oracle supplying
  the streamed chunks, the planning responses and the synthesis stream,
  and json.loads modelled as an abstract parse function.  Python
  exceptions are modelled as an error outcome that aborts the remaining
  computation, exactly where the source lacks a try/except;
* derate_factor and its inline dew-point computation are embedded over
  the real numbers;
* the lock usage of the /chat/stream turn is transcribed as an operation
  trace to settle the session-serialization claim.
-/

/-- JSON values, as produced by json.loads and consumed by json.dumps in
the service.  Numbers are modelled as integers. -/
inductive Json where
  | null : Json
  | bool : Bool → Json
  | num : Int → Json
  | str : String → Json
  | arr : List Json → Json
  | obj : List (String × Json) → Json

mutual

/-- Structural boolean equality on JSON values. -/
def jeq : Json → Json → Bool
  | .null, .null => true
  | .bool a, .bool b => a == b
  | .num a, .num b => a == b
  | .str a, .str b => a == b
  | .arr a, .arr b => jeqList a b
  | .obj a, .obj b => jeqFields a b
  | _, _ => false

def jeqList : List Json → List Json → Bool
  | [], [] => true
  | x :: xs, y :: ys => jeq x y && jeqList xs ys
  | _, _ => false

def jeqFields : List (String × Json) → List (String × Json) → Bool
  | [], [] => true
  | (k, v) :: xs, (l, w) :: ys => k == l && jeq v w && jeqFields xs ys
  | _, _ => false

end

mutual

theorem jeq_iff : ∀ a b : Json, jeq a b = true ↔ a = b
  | .null, .null => by simp [jeq]
  | .null, .bool _ => by simp [jeq]
  | .null, .num _ => by simp [jeq]
  | .null, .str _ => by simp [jeq]
  | .null, .arr _ => by simp [jeq]
  | .null, .obj _ => by simp [jeq]
  | .bool _, .null => by simp [jeq]
  | .bool _, .bool _ => by simp [jeq]
  | .bool _, .num _ => by simp [jeq]
  | .bool _, .str _ => by simp [jeq]
  | .bool _, .arr _ => by simp [jeq]
  | .bool _, .obj _ => by simp [jeq]
  | .num _, .null => by simp [jeq]
  | .num _, .bool _ => by simp [jeq]
  | .num _, .num _ => by simp [jeq]
  | .num _, .str _ => by simp [jeq]
  | .num _, .arr _ => by simp [jeq]
  | .num _, .obj _ => by simp [jeq]
  | .str _, .null => by simp [jeq]
  | .str _, .bool _ => by simp [jeq]
  | .str _, .num _ => by simp [jeq]
  | .str _, .str _ => by simp [jeq]
  | .str _, .arr _ => by simp [jeq]
  | .str _, .obj _ => by simp [jeq]
  | .arr _, .null => by simp [jeq]
  | .arr _, .bool _ => by simp [jeq]
  | .arr _, .num _ => by simp [jeq]
  | .arr _, .str _ => by simp [jeq]
  | .arr a, .arr b => by simp [jeq, jeqList_iff a b]
  | .arr _, .obj _ => by simp [jeq]
  | .obj _, .null => by simp [jeq]
  | .obj _, .bool _ => by simp [jeq]
  | .obj _, .num _ => by simp [jeq]
  | .obj _, .str _ => by simp [jeq]
  | .obj _, .arr _ => by simp [jeq]
  | .obj a, .obj b => by simp [jeq, jeqFields_iff a b]

theorem jeqList_iff : ∀ a b : List Json, jeqList a b = true ↔ a = b
  | [], [] => by simp [jeqList]
  | [], _ :: _ => by simp [jeqList]
  | _ :: _, [] => by simp [jeqList]
  | x :: xs, y :: ys => by
    simp [jeqList, jeq_iff x y, jeqList_iff xs ys]

theorem jeqFields_iff : ∀ a b : List (String × Json), jeqFields a b = true ↔ a = b
  | [], [] => by simp [jeqFields]
  | [], _ :: _ => by simp [jeqFields]
  | _ :: _, [] => by simp [jeqFields]
  | (k, v) :: xs, (l, w) :: ys => by
    simp [jeqFields, jeq_iff v w, jeqFields_iff xs ys, Prod.ext_iff, and_assoc]

end

instance : DecidableEq Json := fun a b => decidable_of_iff _ (jeq_iff a b)

/-- Lexicographic code-point comparison of character lists: the order
Python uses on str keys inside sorted(). -/
def leChars : List Char → List Char → Bool
  | [], _ => true
  | _ :: _, [] => false
  | a :: as, b :: bs =>
    if a.toNat < b.toNat then true
    else if b.toNat < a.toNat then false
    else leChars as bs

/-- String comparison used for sort_keys, as code-point order. -/
def strLe (a b : String) : Bool := leChars a.data b.data

theorem leChars_total : ∀ xs ys : List Char, leChars xs ys = true ∨ leChars ys xs = true := by
  intro xs
  induction xs with
  | nil => intro ys; left; simp [leChars]
  | cons a as ih =>
    intro ys
    cases ys with
    | nil => right; simp [leChars]
    | cons b bs =>
      by_cases h₁ : a.toNat < b.toNat
      · left; simp [leChars, h₁]
      · by_cases h₂ : b.toNat < a.toNat
        · right; simp [leChars, h₂]
        · rcases ih bs with h | h
          · left; simp [leChars, h₁, h₂, h]
          · right; simp [leChars, h₁, h₂, h]

theorem leChars_trans : ∀ xs ys zs : List Char,
    leChars xs ys = true → leChars ys zs = true → leChars xs zs = true := by
  intro xs
  induction xs with
  | nil => intro ys zs _ _; simp [leChars]
  | cons a as ih =>
    intro ys zs hxy hyz
    cases ys with
    | nil => simp [leChars] at hxy
    | cons b bs =>
      cases zs with
      | nil => simp [leChars] at hyz
      | cons c cs =>
        simp only [leChars] at hxy hyz ⊢
        by_cases hab : a.toNat < b.toNat
        · by_cases hbc : b.toNat < c.toNat
          · have : a.toNat < c.toNat := Nat.lt_trans hab hbc
            simp [this]
          · by_cases hcb : c.toNat < b.toNat
            · simp [hbc, hcb] at hyz
            · have hbc' : b.toNat = c.toNat := Nat.le_antisymm (Nat.le_of_not_lt hcb) (Nat.le_of_not_lt hbc)
              have : a.toNat < c.toNat := hbc' ▸ hab
              simp [this]
        · by_cases hba : b.toNat < a.toNat
          · simp [hab, hba] at hxy
          · have hab' : a.toNat = b.toNat := Nat.le_antisymm (Nat.le_of_not_lt hba) (Nat.le_of_not_lt hab)
            by_cases hbc : b.toNat < c.toNat
            · have : a.toNat < c.toNat := hab' ▸ hbc
              simp [this]
            · by_cases hcb : c.toNat < b.toNat
              · simp [hbc, hcb] at hyz
              · have hbc' : b.toNat = c.toNat := Nat.le_antisymm (Nat.le_of_not_lt hcb) (Nat.le_of_not_lt hbc)
                have hac : ¬ a.toNat < c.toNat := by omega
                have hca : ¬ c.toNat < a.toNat := by omega
                simp only [hab, hba, if_neg, ite_false] at hxy
                simp only [hbc, hcb, if_neg, ite_false] at hyz
                simp [hac, hca, ih bs cs hxy hyz]

theorem leChars_antisymm : ∀ xs ys : List Char,
    leChars xs ys = true → leChars ys xs = true → xs = ys := by
  intro xs
  induction xs with
  | nil =>
    intro ys _ hyx
    cases ys with
    | nil => rfl
    | cons b bs => simp [leChars] at hyx
  | cons a as ih =>
    intro ys hxy hyx
    cases ys with
    | nil => simp [leChars] at hxy
    | cons b bs =>
      simp only [leChars] at hxy hyx
      by_cases hab : a.toNat < b.toNat
      · have hba : ¬ b.toNat < a.toNat := by omega
        simp [hba, hab] at hyx
      · by_cases hba : b.toNat < a.toNat
        · simp [hab, hba] at hxy
        · have hab' : a.toNat = b.toNat := Nat.le_antisymm (Nat.le_of_not_lt hba) (Nat.le_of_not_lt hab)
          have hc : a = b := Char.ext (by
            have : a.val.toNat = b.val.toNat := hab'
            exact UInt32.ext this)
          simp only [hab, hba, if_neg, ite_false] at hxy hyx
          rw [hc, ih bs hxy hyx]

theorem strLe_total (a b : String) : strLe a b = true ∨ strLe b a = true :=
  leChars_total a.data b.data

theorem strLe_trans {a b c : String} (h₁ : strLe a b = true) (h₂ : strLe b c = true) :
    strLe a c = true :=
  leChars_trans a.data b.data c.data h₁ h₂

theorem strLe_antisymm {a b : String} (h₁ : strLe a b = true) (h₂ : strLe b a = true) :
    a = b :=
  String.ext (leChars_antisymm a.data b.data h₁ h₂)

/-- Key order on dict entries: compare the keys. -/
def KeyLe (p q : String × Json) : Prop := strLe p.1 q.1 = true

instance : DecidableRel KeyLe := fun _p _q => inferInstanceAs (Decidable (_ = true))

instance : IsTotal (String × Json) KeyLe :=
  ⟨fun p q => strLe_total p.1 q.1⟩

instance : IsTrans (String × Json) KeyLe :=
  ⟨fun _ _ _ h₁ h₂ => strLe_trans h₁ h₂⟩

/-- Strict key order, used to identify the two sides of a permutation. -/
def KeyLt (p q : String × Json) : Prop := KeyLe p q ∧ p.1 ≠ q.1

instance : IsAntisymm (String × Json) KeyLt :=
  ⟨fun _p _q h₁ h₂ => absurd (strLe_antisymm h₁.1 h₂.1) h₁.2⟩

/-- sorted(dict.items()) as performed by json.dumps(..., sort_keys=True). -/
def sortPairs (fs : List (String × Json)) : List (String × Json) :=
  List.insertionSort KeyLe fs

/-- Escaping applied by json.dumps to the backslash and the double quote
inside string literals. -/
def escChars : List Char → List Char
  | [] => []
  | c :: cs =>
    if c = '\\' then '\\' :: '\\' :: escChars cs
    else if c = '\"' then '\\' :: '\"' :: escChars cs
    else c :: escChars cs

/-- A JSON string literal, quoted and escaped. -/
def quoteStr (s : String) : String := "\"" ++ String.mk (escChars s.data) ++ "\""

mutual

/-- json.dumps rendering with an explicit item separator and key-value
separator; Python defaults are ", " and ": ", while
separators=(",", ":") gives the compact form. -/
def renderJson (isep ksep : String) : Json → String
  | .null => "null"
  | .bool b => if b then "true" else "false"
  | .num n => toString n
  | .str s => quoteStr s
  | .arr xs => "[" ++ renderList isep ksep xs ++ "]"
  | .obj fs => "\x7b" ++ renderFields isep ksep fs ++ "\x7d"

def renderList (isep ksep : String) : List Json → String
  | [] => ""
  | [x] => renderJson isep ksep x
  | x :: y :: xs => renderJson isep ksep x ++ isep ++ renderList isep ksep (y :: xs)

def renderFields (isep ksep : String) : List (String × Json) → String
  | [] => ""
  | [(k, v)] => quoteStr k ++ ksep ++ renderJson isep ksep v
  | (k, v) :: f :: fs =>
    quoteStr k ++ ksep ++ renderJson isep ksep v ++ isep ++ renderFields isep ksep (f :: fs)

end

mutual

/-- The recursive key sorting performed by json.dumps(..., sort_keys=True):
every object, at every depth, has its fields sorted by key. -/
def sortAllJson : Json → Json
  | .null => .null
  | .bool b => .bool b
  | .num n => .num n
  | .str s => .str s
  | .arr xs => .arr (sortAllList xs)
  | .obj fs => .obj (sortPairs (sortAllFields fs))

def sortAllList : List Json → List Json
  | [] => []
  | x :: xs => sortAllJson x :: sortAllList xs

def sortAllFields : List (String × Json) → List (String × Json)
  | [] => []
  | (k, v) :: fs => (k, sortAllJson v) :: sortAllFields fs

end

/-- json.dumps(args, sort_keys=True) with the Python default separators
(", " between items, ": " between key and value), as called in main.py
invoke_tool. -/
def pyDumpsSorted (j : Json) : String := renderJson ", " ": " (sortAllJson j)

/-- json.dumps(args, sort_keys=True, separators=(",", ":")), the compact
form used by tool_executor._make_tool_key. -/
def pyDumpsCompact (j : Json) : String := renderJson "," ":" (sortAllJson j)

/-- The cache key built inline in main.py invoke_tool:
f-string of the tool name, a bar, and json.dumps(func_args, sort_keys=True). -/
def tool_cache_key (name : String) (args : Json) : String :=
  name ++ "|" ++ pyDumpsSorted args

/-- tool_executor._make_tool_key: the tool name, a bar, and the compact
sorted dump of the parsed arguments. -/
def make_tool_key (name : String) (args : Json) : String :=
  name ++ "|" ++ pyDumpsCompact args

theorem sortAllFields_eq_map (fs : List (String × Json)) :
    sortAllFields fs = fs.map (fun p => (p.1, sortAllJson p.2)) := by
  induction fs with
  | nil => rfl
  | cons p fs ih => cases p; simp [sortAllFields, ih]

/-- Sorting two permutations of the same key-distinct field list gives the
same list: insertion sort output is characterized by being a sorted
permutation, and distinct keys make the sorted order unique. -/
theorem sortPairs_perm_eq {fs₁ fs₂ : List (String × Json)}
    (hp : fs₁.Perm fs₂) (hnd : (fs₁.map Prod.fst).Nodup) :
    sortPairs fs₁ = sortPairs fs₂ := by
  have hperm : (sortPairs fs₁).Perm (sortPairs fs₂) :=
    ((List.perm_insertionSort KeyLe fs₁).trans hp).trans
      (List.perm_insertionSort KeyLe fs₂).symm
  have hs₁ : List.Sorted KeyLe (sortPairs fs₁) := List.sorted_insertionSort KeyLe fs₁
  have hs₂ : List.Sorted KeyLe (sortPairs fs₂) := List.sorted_insertionSort KeyLe fs₂
  have hnd₁ : ((sortPairs fs₁).map Prod.fst).Nodup :=
    (((List.perm_insertionSort KeyLe fs₁).map Prod.fst).nodup_iff).mpr hnd
  have hnd₂ : ((sortPairs fs₂).map Prod.fst).Nodup :=
    (((List.perm_insertionSort KeyLe fs₂).map Prod.fst).nodup_iff).mpr
      ((hp.map Prod.fst).nodup_iff.mp hnd)
  have hne₁ : (sortPairs fs₁).Pairwise (fun p q => p.1 ≠ q.1) :=
    List.pairwise_map.mp hnd₁
  have hne₂ : (sortPairs fs₂).Pairwise (fun p q => p.1 ≠ q.1) :=
    List.pairwise_map.mp hnd₂
  have hlt₁ : List.Sorted KeyLt (sortPairs fs₁) :=
    (hs₁.and hne₁).imp (fun h => ⟨h.1, h.2⟩)
  have hlt₂ : List.Sorted KeyLt (sortPairs fs₂) :=
    (hs₂.and hne₂).imp (fun h => ⟨h.1, h.2⟩)
  exact List.eq_of_perm_of_sorted hperm hlt₁ hlt₂

/-- Key determinism of both cache-key builders under reordering of the
argument entries (distinct keys). -/
theorem cache_key_perm_invariant {fs₁ fs₂ : List (String × Json)} (name : String)
    (hp : fs₁.Perm fs₂) (hnd : (fs₁.map Prod.fst).Nodup) :
    tool_cache_key name (.obj fs₁) = tool_cache_key name (.obj fs₂) ∧
    make_tool_key name (.obj fs₁) = make_tool_key name (.obj fs₂) := by
  have hmap : (sortAllFields fs₁).Perm (sortAllFields fs₂) := by
    rw [sortAllFields_eq_map, sortAllFields_eq_map]
    exact hp.map _
  have hmnd : ((sortAllFields fs₁).map Prod.fst).Nodup := by
    rw [sortAllFields_eq_map]
    have : (fs₁.map (fun p => (p.1, sortAllJson p.2))).map Prod.fst = fs₁.map Prod.fst := by
      simp [List.map_map, Function.comp]
    rw [this]; exact hnd
  have hsort : sortPairs (sortAllFields fs₁) = sortPairs (sortAllFields fs₂) :=
    sortPairs_perm_eq hmap hmnd
  constructor
  · simp [tool_cache_key, pyDumpsSorted, sortAllJson, hsort]
  · simp [make_tool_key, pyDumpsCompact, sortAllJson, hsort]

/-- Lookup in an insertion-ordered association list, the read of a Python
dict. -/
def dictGet (d : List (String × Json)) (k : String) : Option Json :=
  match d with
  | [] => none
  | (k₁, v) :: rest => if k₁ = k then some v else dictGet rest k

/-- Write of a Python dict: replace in place when the key exists,
otherwise append at the end. -/
def dictSet (d : List (String × Json)) (k : String) (v : Json) : List (String × Json) :=
  match d with
  | [] => [(k, v)]
  | (k₁, v₁) :: rest => if k₁ = k then (k, v) :: rest else (k₁, v₁) :: dictSet rest k v

theorem dictGet_dictSet_self (d : List (String × Json)) (k : String) (v : Json) :
    dictGet (dictSet d k v) k = some v := by
  induction d with
  | nil => simp [dictSet, dictGet]
  | cons p rest ih =>
    cases p with
    | mk k₁ v₁ =>
      by_cases h : k₁ = k
      · simp [dictSet, dictGet, h]
      · simp [dictSet, dictGet, h, ih]

theorem dictGet_dictSet_isSome (d : List (String × Json)) (k k₂ : String) (v : Json)
    (h : (dictGet (dictSet d k v) k₂).isSome) :
    k₂ = k ∨ (dictGet d k₂).isSome := by
  induction d with
  | nil =>
    simp only [dictSet, dictGet] at h
    by_cases hk : k = k₂
    · left; exact hk.symm
    · simp [hk] at h
  | cons p rest ih =>
    cases p with
    | mk k₁ v₁ =>
      by_cases h₁ : k₁ = k
      · simp only [dictSet, h₁, if_pos] at h
        simp only [dictGet] at h
        by_cases hk : k = k₂
        · left; exact hk.symm
        · right; simp only [dictGet, h₁, hk, if_neg, ite_false]
          simpa [hk] using h
      · simp only [dictSet, h₁, if_neg, ite_false, dictGet] at h
        by_cases hk : k₁ = k₂
        · right; simp [dictGet, hk]
        · simp only [hk, if_neg, ite_false] at h
          rcases ih h with h' | h'
          · left; exact h'
          · right; simpa [dictGet, hk] using h'

/-- The part of a Session touched by the streaming turn: the per-session
tool cache, the per-turn duplicate set session["_turn_calls"], and the
light sizing state dict. -/
structure Session where
  cache : List (String × Json)
  turnCalls : List String
  state : List (String × Json)
deriving DecidableEq

/-- Outcome of running a Python callable: a returned value or a raised
exception carrying its message. -/
inductive ToolOutcome where
  | ok : Json → ToolOutcome
  | raised : String → ToolOutcome
deriving DecidableEq

/-- The keys of tool_map in main.py invoke_tool. -/
def known_tool_names : List String :=
  ["retrieve_relevant_docs", "calculate_dehum_load", "pulldown_air_l",
   "pool_evap_l_per_day", "infiltration_l_per_day"]

/-- The marker dict returned for a repeated call within one turn. -/
def skippedDuplicate : Json := .obj [("note", .str "skipped_duplicate")]

/-- Result of invoke_tool: the outcome, the mutated session, and a ghost
log of the underlying registry executions actually performed. -/
structure InvokeOut where
  outcome : ToolOutcome
  session : Session
  execs : List (String × Json)
deriving DecidableEq

/-- The try/except around the registry call inside invoke_tool: a value
returned by the tool function, or its exception caught into an error
dict. -/
def invoke_result (impl : String → Json → ToolOutcome) (func_name : String)
    (func_args : Json) : Json :=
  match impl func_name func_args with
  | .ok r => r
  | .raised e => .obj [("error", .str e)]

/-- main.py invoke_tool: duplicate suppression via session["_turn_calls"],
unknown-tool ValueError, per-session cache lookup, execution with the
tool exceptions caught into an error dict, and cache store.  The registry
functions themselves are abstracted as impl. -/
def invoke_tool (impl : String → Json → ToolOutcome) (func_name : String)
    (func_args : Json) (s : Session) : InvokeOut :=
  let cache_key := tool_cache_key func_name func_args
  if s.turnCalls.contains cache_key then
    ⟨.ok skippedDuplicate, s, []⟩
  else
    let s₁ : Session := { s with turnCalls := s.turnCalls ++ [cache_key] }
    if known_tool_names.contains func_name then
      match dictGet s₁.cache cache_key with
      | some cached => ⟨.ok cached, s₁, []⟩
      | none =>
        let result := invoke_result impl func_name func_args
        ⟨.ok result, { s₁ with cache := dictSet s₁.cache cache_key result },
          [(func_name, func_args)]⟩
    else
      ⟨.raised ("Unknown tool: " ++ func_name), s₁, []⟩

/-- del session["_turn_calls"], performed by every endpoint in its finally
block once the turn ends. -/
def clear_turn_calls (s : Session) : Session := { s with turnCalls := [] }

/-- A tool call as handed to ToolExecutor.execute: a function name and the
raw argument text. -/
structure ExecCall where
  name : String
  args : String
deriving DecidableEq

/-- The function names dispatched by ToolExecutor._invoke. -/
def executor_tool_names : List String :=
  ["calculate_dehum_load", "get_product_catalog", "retrieve_relevant_docs"]

/-- State threaded through ToolExecutor.execute: accumulated results, the
session tool_cache, a ghost log of cache insertions (key and tool name),
and a raised exception if one escaped. -/
structure ExecState where
  results : List (String × Json × Json)
  tool_cache : List (String × Json)
  added : List (String × String)
  err : Option String
deriving DecidableEq

/-- One iteration of the loop in ToolExecutor.execute: parse the raw
arguments (JSONDecodeError falls back to an empty dict), build the compact
cache key, consult the cache unless the call is the document-retrieval
tool, otherwise dispatch via _invoke (unknown names raise) and store the
result in the cache for every tool except document retrieval. -/
def executor_execute_step (parse : String → Option Json)
    (impl : String → Json → ToolOutcome) (c : ExecCall) (st : ExecState) : ExecState :=
  if st.err.isSome then st else
  let func_args := match parse c.args with
    | some a => a
    | none => .obj []
  let key := make_tool_key c.name func_args
  let use_cache : Bool := c.name != "retrieve_relevant_docs"
  match (if use_cache then dictGet st.tool_cache key else none) with
  | some cached =>
    { st with results := st.results ++ [(c.name, func_args, cached)] }
  | none =>
    if executor_tool_names.contains c.name then
      match impl c.name func_args with
      | .raised e => { st with err := some e }
      | .ok result =>
        { st with
          results := st.results ++ [(c.name, func_args, result)],
          tool_cache := if use_cache then dictSet st.tool_cache key result else st.tool_cache,
          added := if use_cache then st.added ++ [(key, c.name)] else st.added }
    else
      { st with err := some ("Unknown function: " ++ c.name) }

/-- ToolExecutor.execute over a list of tool calls, starting from a given
session tool_cache. -/
def executor_execute (parse : String → Option Json)
    (impl : String → Json → ToolOutcome) (calls : List ExecCall)
    (cache₀ : List (String × Json)) : ExecState :=
  calls.foldl (fun st c => executor_execute_step parse impl c st)
    ⟨[], cache₀, [], none⟩

/-- Does the needle list start the haystack list. -/
def listStartsWith : List Char → List Char → Bool
  | [], _ => true
  | _ :: _, [] => false
  | a :: as, b :: bs => a == b && listStartsWith as bs

/-- Substring search, the Python in operator on str. -/
def listHasSub (needle : List Char) : List Char → Bool
  | [] => needle.isEmpty
  | c :: rest => listStartsWith needle (c :: rest) || listHasSub needle rest

/-- needle in haystack, on strings. -/
def strContains (hay needle : String) : Bool := listHasSub needle.data hay.data

/-- ASCII lowercasing of one character, the part of str.lower() the
dispatch on "recommend" can observe. -/
def lowerChar (c : Char) : Char :=
  if 65 ≤ c.toNat ∧ c.toNat ≤ 90 then Char.ofNat (c.toNat + 32) else c

/-- str.lower() on the user text. -/
def lowerStr (s : String) : String := String.mk (s.data.map lowerChar)

/-- A streamed tool-call delta: the stream index plus optional fragments
of the id, type, function name and arguments; the empty string models an
absent field, matching the truthiness tests in the source. -/
structure ToolDelta where
  index : Nat
  id : String
  ty : String
  name : String
  args : String
deriving DecidableEq

/-- One chunk of the streamed model response in the INITIAL phase: an
optional content delta and the tool-call deltas it carries. -/
structure Chunk where
  content : String
  toolDeltas : List ToolDelta
deriving DecidableEq

/-- An assembled tool-call record, as stored in tool_call_dicts. -/
structure ToolCall where
  id : String
  ty : String
  name : String
  args : String
deriving DecidableEq

/-- tool_call_dicts.setdefault(index, fresh record): dict insertion order
is first-appearance order of the stream index. -/
def setdefaultRec (dicts : List (Nat × ToolCall)) (d : ToolDelta) : List (Nat × ToolCall) :=
  if (dicts.lookup d.index).isSome then dicts
  else dicts ++ [(d.index, ⟨d.id, d.ty, "", ""⟩)]

/-- Apply one tool-call delta to the record at its index: a name fragment
overwrites the name, an arguments fragment is concatenated in arrival
order. -/
def applyDelta (dicts : List (Nat × ToolCall)) (d : ToolDelta) : List (Nat × ToolCall) :=
  (setdefaultRec dicts d).map fun p =>
    if p.1 = d.index then
      (p.1, { p.2 with
        name := if d.name ≠ "" then d.name else p.2.name,
        args := if d.args ≠ "" then p.2.args ++ d.args else p.2.args })
    else p

/-- Assembly of tool_call_dicts across the whole INITIAL stream. -/
def assembleToolCalls (chunks : List Chunk) : List (Nat × ToolCall) :=
  chunks.foldl (fun dicts c => c.toolDeltas.foldl applyDelta dicts) []

/-- finalize_tool_calls: keep the records whose accumulated arguments
string (with the empty string replaced by an empty-object literal by the
or-default) parses as JSON; records that fail to parse are dropped with a
bare continue, no event is emitted for them. -/
def finalize_tool_calls (parse : String → Option Json)
    (dicts : List (Nat × ToolCall)) : List ToolCall :=
  (dicts.map Prod.snd).filter fun r =>
    (parse (if r.args = "" then "\x7b\x7d" else r.args)).isSome

/-- A streaming event as yielded to the transport layer.  Python events
are dicts with heterogeneous keys; absent boolean keys read as false, so
each event is modelled with every field present and defaulted. -/
structure Event where
  etype : String
  content : String
  phase : String
  isFinal : Bool
  isStreamingChunk : Bool
  toolName : String
  functionCalls : List (String × Json × Json)
deriving DecidableEq

def responseEvent (phase content : String) : Event :=
  ⟨"response", content, phase, false, true, "", []⟩

def toolStartEvent : Event := ⟨"tool_start", "", "tools", false, false, "", []⟩

def toolProgressEvent (name : String) : Event :=
  ⟨"tool_progress", "", "tools", false, false, name, []⟩

def toolResultEvent (name : String) : Event :=
  ⟨"tool_result", "", "tools", false, false, name, []⟩

def toolEndEvent : Event := ⟨"tool_end", "", "tools", false, false, "", []⟩

/-- The catalog-prepared progress event yielded after the tool loop when a
cached load calculation exists. -/
def catalogProgressEvent : Event :=
  ⟨"tool_progress", "Prepared catalog", "tools", false, false, "", []⟩

/-- The single final event of a turn: empty message, is_final true, and
the list of tool results of the turn. -/
def finalEvent (results : List (String × Json × Json)) : Event :=
  ⟨"", "", "", true, false, "", results⟩

/-- A message on the prompt list. -/
structure Msg where
  role : String
  content : String
  toolCalls : List ToolCall
  toolCallId : String
  name : String
deriving DecidableEq

/-- Field access on a JSON object; none models the KeyError or TypeError
Python raises on a missing key or a non-dict. -/
def jGet (j : Json) (k : String) : Option Json :=
  match j with
  | .obj fs => dictGet fs k
  | _ => none

/-- dict.get(key): null for an absent key. -/
def jGetD (j : Json) (k : String) : Json :=
  match jGet j k with
  | some v => v
  | none => .null

/-- The session["state"] update performed after a calculate_dehum_load
result inside stream_tools_phase: store last_load_lpd from
result.get("total_lpd"), then build last_inputs_summary out of
result["derived"]["volume"], func_args["indoor_temp"] and
func_args["target_rh"]; a missing key raises and the exception escapes
the generator. -/
def sizing_state_update (func_name : String) (func_args result : Json)
    (s : Session) : Session × Option String :=
  if func_name = "calculate_dehum_load" then
    match result with
    | .obj _ =>
      let s₁ := { s with state := dictSet s.state "last_load_lpd" (jGetD result "total_lpd") }
      match jGet result "derived" with
      | none => (s₁, some "KeyError: derived")
      | some derived =>
        match jGet derived "volume", jGet func_args "indoor_temp", jGet func_args "target_rh" with
        | some vol, some temp, some rh =>
          let summary := "Vol=" ++ renderJson ", " ": " vol ++ "m³, Temp=" ++
            renderJson ", " ": " temp ++ "°C, RH=" ++ renderJson ", " ": " rh ++ "%"
          ({ s₁ with state := dictSet s₁.state "last_inputs_summary" (Json.str summary) }, none)
        | _, _, _ => (s₁, some "KeyError: state inputs")
    | _ => (s, some "AttributeError: result.get")
  else (s, none)

/-- The content of the tool-role message appended per executed call:
formatted_docs for the document-retrieval tool when present, otherwise
json.dumps of the result. -/
def tool_msg_content (func_name : String) (result : Json) : String :=
  if func_name = "retrieve_relevant_docs" then
    match jGet result "formatted_docs" with
    | some (.str s) => s
    | some v => renderJson ", " ": " v
    | none => renderJson ", " ": " result
  else renderJson ", " ": " result

/-- MAX_TOOL_CALLS_PER_TURN from main.py. -/
def MAX_TOOL_CALLS_PER_TURN : Nat := 4

/-- State threaded through stream_tools_phase: the session, the prompt
messages, the yielded events, the collected tool results, total_calls,
and two ghost logs (actual registry executions, and total_calls at each
planning round), plus the pending exception and the model-fuel flag. -/
structure ToolsState where
  session : Session
  messages : List Msg
  events : List Event
  results : List (String × Json × Json)
  total : Nat
  execLog : List (String × Json)
  planTotals : List Nat
  err : Option String
  exhausted : Bool
deriving DecidableEq

/-- The inner for-loop over one batch of tool calls: break once
total_calls reaches the cap, parse the raw arguments (a failure raises),
yield a progress event, run invoke_tool (an unknown tool raises), record
the result, append the tool message, yield a result event, then run the
sizing-state update. -/
def run_batch_items (parse : String → Option Json)
    (impl : String → Json → ToolOutcome) :
    List ToolCall → ToolsState → ToolsState
  | [], st => st
  | tc :: rest, st =>
    if st.err.isSome then st
    else if MAX_TOOL_CALLS_PER_TURN ≤ st.total then st
    else
      match parse tc.args with
      | none => { st with err := some "json.loads: invalid tool arguments" }
      | some func_args =>
        let st₁ := { st with events := st.events ++ [toolProgressEvent tc.name] }
        let inv := invoke_tool impl tc.name func_args st₁.session
        match inv.outcome with
        | .raised e => { st₁ with session := inv.session, err := some e }
        | .ok result =>
          let st₂ := { st₁ with
            session := inv.session,
            execLog := st₁.execLog ++ inv.execs,
            total := st₁.total + 1,
            results := st₁.results ++ [(tc.name, func_args, result)],
            messages := st₁.messages ++
              [Msg.mk "tool" (tool_msg_content tc.name result) [] tc.id tc.name],
            events := st₁.events ++ [toolResultEvent tc.name] }
          let upd := sizing_state_update tc.name func_args result st₂.session
          match upd.2 with
          | some e => { st₂ with session := upd.1, err := some e }
          | none => run_batch_items parse impl rest { st₂ with session := upd.1 }

/-- The batch-planning while loop of stream_tools_phase.  The loop runs
while the current batch is non-empty and total_calls is under the cap;
after a batch it either breaks (cap reached, or the planner proposes no
further calls) or continues with the planned batch.  The fuel argument
makes the recursion structural; the exhausted flag marks the branch the
while loop can never reach, which is proved separately. -/
def tools_loop (parse : String → Option Json)
    (impl : String → Json → ToolOutcome) (planner : Nat → List ToolCall)
    (plannerContent : Nat → String) :
    Nat → Nat → List ToolCall → ToolsState → ToolsState
  | fuel, round, batch, st =>
    if batch = [] ∨ MAX_TOOL_CALLS_PER_TURN ≤ st.total then st
    else
      match fuel with
      | 0 => { st with exhausted := true }
      | fuel₁ + 1 =>
        let st₁ := { st with events := st.events ++ [toolStartEvent] }
        let st₂ := run_batch_items parse impl batch st₁
        if st₂.err.isSome then st₂
        else if MAX_TOOL_CALLS_PER_TURN ≤ st₂.total then st₂
        else
          let st₃ := { st₂ with planTotals := st₂.planTotals ++ [st₂.total] }
          match planner round with
          | [] => st₃
          | n :: more =>
            tools_loop parse impl planner plannerContent fuel₁ (round + 1) (n :: more)
              { st₃ with messages := st₃.messages ++
                [Msg.mk "assistant" (plannerContent round) (n :: more) "" ""] }

/-- get_latest_load_info succeeds when some cache key contains the
substring calculate_dehum_load. -/
def has_load_calc_result (s : Session) : Bool :=
  s.cache.any fun p => strContains p.1 "calculate_dehum_load"

/-- The catalog system message built by prepare_catalog_message.  Its
JSON body is a function of the external product database file and the
derate factor, none of which the claims inspect, so the body is kept
abstract behind the marker prefix the source uses. -/
def catalog_message : Msg :=
  ⟨"system", "AVAILABLE_PRODUCT_CATALOG_JSON = ...", [], "", ""⟩

/-- stream_tools_phase: the planning loop, the closing tool_end event,
and the catalog-context step guarded by the latest cached load result. -/
def stream_tools_phase (parse : String → Option Json)
    (impl : String → Json → ToolOutcome) (planner : Nat → List ToolCall)
    (plannerContent : Nat → String) (batch : List ToolCall)
    (messages : List Msg) (session : Session) : ToolsState :=
  let st₀ : ToolsState := ⟨session, messages, [], [], 0, [], [], none, false⟩
  let st := tools_loop parse impl planner plannerContent
    MAX_TOOL_CALLS_PER_TURN 0 batch st₀
  if st.err.isSome ∨ st.exhausted then st
  else
    let st₁ := { st with events := st.events ++ [toolEndEvent] }
    if has_load_calc_result st₁.session then
      let st₂ := { st₁ with messages := st₁.messages ++ [catalog_message] }
      { st₂ with events := st₂.events ++ [catalogProgressEvent] }
    else st₁

/-- The phases the turn state machine can move to at the end of the
INITIAL phase. -/
inductive Phase where
  | tools : Phase
  | recommendations : Phase
  | final : Phase
deriving DecidableEq

/-- The transition taken at the end of the INITIAL phase: tools when any
tool calls were assembled, otherwise recommendations when the lowercased
user text contains recommend, otherwise final. -/
def initial_transition (tool_calls : List ToolCall) (last_user : String) : Phase :=
  if tool_calls ≠ [] then .tools
  else if strContains (lowerStr last_user) "recommend" then .recommendations
  else .final

/-- accumulated_content across the INITIAL stream. -/
def accumulate_content (chunks : List Chunk) : String :=
  chunks.foldl (fun acc c => if c.content = "" then acc else acc ++ c.content) ""

/-- The streamed-chunk events of the INITIAL phase: one response event per
chunk with a truthy content delta. -/
def initial_events (chunks : List Chunk) : List Event :=
  chunks.filterMap fun c =>
    if c.content = "" then none else some (responseEvent "initial_summary" c.content)

/-- The streamed-chunk events of the recommendations phase. -/
def rec_events (recChunks : List String) : List Event :=
  recChunks.filterMap fun c =>
    if c = "" then none else some (responseEvent "recommendations" c)

/-- The outcome of one streaming turn: the events yielded in order, the
escaped exception if any, and the final session, messages and tool
results, plus the ghost data of the tools phase. -/
structure RunOut where
  events : List Event
  err : Option String
  session : Session
  messages : List Msg
  results : List (String × Json × Json)
  totalToolCalls : Nat
  execLog : List (String × Json)
  planTotals : List Nat
  exhausted : Bool
deriving DecidableEq

/-- process_chat_streaming: the INITIAL phase streams content chunks and
assembles tool-call deltas, finalize_tool_calls validates them, the phase
dispatch chooses tools, recommendations or final, the tools phase feeds
into the recommendations phase, and the single final event closes the
turn with the collected tool results.  The model streams are supplied by
the oracle arguments. -/
def process_chat_streaming (parse : String → Option Json)
    (impl : String → Json → ToolOutcome) (planner : Nat → List ToolCall)
    (plannerContent : Nat → String) (initialChunks : List Chunk)
    (recChunks : List String) (messages : List Msg) (session : Session)
    (last_user : String) : RunOut :=
  let evInit := initial_events initialChunks
  let acc := accumulate_content initialChunks
  let dicts := assembleToolCalls initialChunks
  let tool_calls := finalize_tool_calls parse dicts
  let messages₁ := messages ++ [Msg.mk "assistant" acc tool_calls "" ""]
  match initial_transition tool_calls last_user with
  | .tools =>
    let st := stream_tools_phase parse impl planner plannerContent tool_calls messages₁ session
    match st.err with
    | some e =>
      ⟨evInit ++ st.events, some e, st.session, st.messages, [], st.total,
        st.execLog, st.planTotals, st.exhausted⟩
    | none =>
      if st.exhausted then
        ⟨evInit ++ st.events, some "model fuel exhausted", st.session, st.messages,
          [], st.total, st.execLog, st.planTotals, true⟩
      else
        ⟨evInit ++ st.events ++ rec_events recChunks ++ [finalEvent st.results], none,
          st.session, st.messages, st.results, st.total, st.execLog, st.planTotals, false⟩
  | .recommendations =>
    ⟨evInit ++ rec_events recChunks ++ [finalEvent []], none, session, messages₁,
      [], 0, [], [], false⟩
  | .final =>
    ⟨evInit ++ [finalEvent []], none, session, messages₁, [], 0, [], [], false⟩

/-- The session-relevant operations of one /chat/stream turn, in program
order: get_or_create_session acquires and releases the global session
lock around the lookup or creation; the user-message append, the
prompt-building read of history, the cache reads and writes of the tools
phase, the streamed chunks, the final event and the save in the finally
block all run after the release. -/
inductive SOp where
  | lockAcquire : SOp
  | sessionLookup : SOp
  | lockRelease : SOp
  | historyAppend : SOp
  | historyRead : SOp
  | cacheRead : SOp
  | cacheWrite : SOp
  | emitChunk : SOp
  | emitFinal : SOp
  | persistSession : SOp
deriving DecidableEq

/-- The operation trace of one streaming turn, transcribed from
chat_stream and process_chat_streaming. -/
def streaming_turn_trace : List SOp :=
  [.lockAcquire, .sessionLookup, .lockRelease, .historyAppend, .historyRead,
   .cacheRead, .cacheWrite, .emitChunk, .emitFinal, .persistSession]

/-- The operations that read or mutate history or tool_cache. -/
def touches_session_state : SOp → Bool
  | .historyAppend => true
  | .historyRead => true
  | .cacheRead => true
  | .cacheWrite => true
  | _ => false

/-- Annotate every operation with the lock depth in effect while it runs:
an acquire runs at the deeper count, a release still holds the lock. -/
def lock_depths (ops : List SOp) : List (SOp × Nat) :=
  (ops.foldl (fun (acc : List (SOp × Nat) × Nat) op =>
    match op with
    | .lockAcquire => (acc.1 ++ [(op, acc.2 + 1)], acc.2 + 1)
    | .lockRelease => (acc.1 ++ [(op, acc.2)], acc.2 - 1)
    | _ => (acc.1 ++ [(op, acc.2)], acc.2)) ([], 0)).1

/-- The property claimed of the turn: every history or tool_cache access,
the final-event emission and the persistence all happen while the
session lock is held. -/
def claimed_lock_extent (ops : List SOp) : Bool :=
  (lock_depths ops).all fun p =>
    if touches_session_state p.1 || p.1 == SOp.emitFinal || p.1 == SOp.persistSession
    then decide (0 < p.2) else true

/-- The operations that actually run with the lock held. -/
def ops_under_lock (ops : List SOp) : List SOp :=
  ((lock_depths ops).filter fun p => decide (0 < p.2)).map Prod.fst

noncomputable section

/-- saturation_vp_kpa from main.py: the temperature is clamped to the
realistic range, then the ASHRAE exponential is applied. -/
def saturation_vp_kpa (temp_c : ℝ) : ℝ :=
  let t := max (-50) (min 60 temp_c)
  0.61078 * Real.exp ((17.2694 * t) / (t + 237.3))

/-- The dew point computed inline by derate_factor: the clamped vapor
pressure is inverted through the same ASHRAE constants. -/
def dew_point (temp_c rh_percent : ℝ) : ℝ :=
  let t := max (-50) (min 60 temp_c)
  let r := max 0 (min 100 rh_percent)
  let pv := (r / 100) * saturation_vp_kpa t
  let alpha := Real.log (pv / 0.61078)
  237.3 * alpha / (17.2694 - alpha)

/-- The empirical curve derate_factor applies to the dew point: floor at
zero, normalize by 26, exponent 1.5, clamp into the band. -/
def derate_curve (td : ℝ) : ℝ :=
  min 1 (max 0.1 ((max td 0 / 26) ^ (1.5 : ℝ)))

/-- derate_factor from main.py: clamp the inputs, return the floor for
dry air or non-positive vapor pressure, otherwise apply the empirical
curve to the inline dew point. -/
def derate_factor (temp_c rh_percent : ℝ) : ℝ :=
  let t := max (-50) (min 60 temp_c)
  let r := max 0 (min 100 rh_percent)
  if r ≤ 0 then 0.1
  else
    let pv := (r / 100) * saturation_vp_kpa t
    if pv ≤ 0 then 0.1
    else
      let alpha := Real.log (pv / 0.61078)
      let td := 237.3 * alpha / (17.2694 - alpha)
      min 1 (max 0.1 ((max td 0 / 26) ^ (1.5 : ℝ)))

end

/-- A fixed registry implementation used by the concrete runs below. -/
def probe_impl : String → Json → ToolOutcome :=
  fun _ _ => .ok (.obj [("total_lpd", .num 42)])

/-- A fresh session. -/
def empty_session : Session := ⟨[], [], []⟩

/-- A concrete argument dict. -/
def probe_args : Json := .obj [("volume_m3", .num 100)]

/-- A concrete stand-in for json.loads over the argument texts used by
the concrete runs: the empty dict literal and one known payload parse,
everything else is invalid. -/
def probe_parse : String → Option Json := fun s =>
  if s = "\x7b\x7d" then some (.obj [])
  else if s = "\x7bvol\x7d" then some probe_args
  else none

/-- An INITIAL stream carrying one valid call. -/
def probe_chunks_good : List Chunk :=
  [⟨"Hi", [⟨0, "call0", "function", "pulldown_air_l", "\x7bvol\x7d"⟩]⟩]

/-- An INITIAL stream carrying one call whose accumulated arguments never
become valid JSON, alongside one valid call. -/
def probe_chunks_bad_json : List Chunk :=
  [⟨"Hi", [⟨0, "call0", "function", "pulldown_air_l", "notjson"⟩,
           ⟨1, "call1", "function", "pulldown_air_l", ""⟩]⟩,
   ⟨"", [⟨1, "", "", "", "\x7bvol\x7d"⟩]⟩]

/-- An INITIAL stream assembling one call whose function name is not in
the registry. -/
def probe_chunks_unknown : List Chunk :=
  [⟨"", [⟨0, "call0", "function", "get_weather", "\x7b\x7d"⟩]⟩]

/-- The events the turn may yield before its final event: none is marked
final and none is a tool-error event. -/
def benign_event (e : Event) : Prop :=
  e.isFinal = false ∧ e.etype ≠ "tool_error"

theorem benign_responseEvent (phase content : String) :
    benign_event (responseEvent phase content) := by
  constructor <;> simp [responseEvent, benign_event]

theorem benign_initial_events (chunks : List Chunk) :
    ∀ e ∈ initial_events chunks, benign_event e := by
  intro e he
  rcases List.mem_filterMap.mp he with ⟨c, _, hc⟩
  by_cases h : c.content = ""
  · simp [h] at hc
  · simp only [h, if_neg, ite_false] at hc
    cases hc
    exact benign_responseEvent _ _

theorem benign_rec_events (recChunks : List String) :
    ∀ e ∈ rec_events recChunks, benign_event e := by
  intro e he
  rcases List.mem_filterMap.mp he with ⟨c, _, hc⟩
  by_cases h : c = ""
  · simp [h] at hc
  · simp only [h, if_neg, ite_false] at hc
    cases hc
    exact benign_responseEvent _ _

theorem benign_run_batch_items (parse : String → Option Json)
    (impl : String → Json → ToolOutcome) :
    ∀ (batch : List ToolCall) (st : ToolsState),
      (∀ e ∈ st.events, benign_event e) →
      ∀ e ∈ (run_batch_items parse impl batch st).events, benign_event e := by
  intro batch
  induction batch with
  | nil => intro st h; simpa [run_batch_items] using h
  | cons tc rest ih =>
    intro st h
    rw [run_batch_items]
    by_cases h₁ : st.err.isSome
    · simpa [h₁] using h
    · simp only [h₁, if_neg, ite_false, Bool.false_eq_true]
      by_cases h₂ : MAX_TOOL_CALLS_PER_TURN ≤ st.total
      · simpa [h₂] using h
      · simp only [h₂, if_neg, ite_false]
        rcases hp : parse tc.args with _ | fa
        · simpa using h
        · simp only []
          have hprog : ∀ e ∈ st.events ++ [toolProgressEvent tc.name], benign_event e := by
            intro e he
            rcases List.mem_append.mp he with he | he
            · exact h e he
            · simp only [List.mem_singleton] at he
              subst he
              constructor <;> simp [toolProgressEvent, benign_event]
          rcases hout : (invoke_tool impl tc.name fa
              { cache := st.session.cache, turnCalls := st.session.turnCalls,
                state := st.session.state }).outcome with r | e₀
          all_goals simp only [hout]
          · have hres : ∀ e ∈ (st.events ++ [toolProgressEvent tc.name]) ++ [toolResultEvent tc.name],
                benign_event e := by
              intro e he
              rcases List.mem_append.mp he with he | he
              · exact hprog e he
              · simp only [List.mem_singleton] at he
                subst he
                constructor <;> simp [toolResultEvent, benign_event]
            rcases hupd : (sizing_state_update tc.name fa r _).2 with _ | e₁
            all_goals simp only [hupd]
            · exact ih _ hres
            · exact hres
          · exact hprog

theorem benign_tools_loop (parse : String → Option Json)
    (impl : String → Json → ToolOutcome) (planner : Nat → List ToolCall)
    (plannerContent : Nat → String) :
    ∀ (fuel round : Nat) (batch : List ToolCall) (st : ToolsState),
      (∀ e ∈ st.events, benign_event e) →
      ∀ e ∈ (tools_loop parse impl planner plannerContent fuel round batch st).events,
        benign_event e := by
  intro fuel
  induction fuel with
  | zero =>
    intro round batch st h
    rw [tools_loop]
    by_cases hg : batch = [] ∨ MAX_TOOL_CALLS_PER_TURN ≤ st.total
    · simpa [hg] using h
    · simpa [hg] using h
  | succ fuel₁ ih =>
    intro round batch st h
    rw [tools_loop]
    by_cases hg : batch = [] ∨ MAX_TOOL_CALLS_PER_TURN ≤ st.total
    · simpa [hg] using h
    · simp only [hg, if_neg, ite_false]
      have hstart : ∀ e ∈ st.events ++ [toolStartEvent], benign_event e := by
        intro e he
        rcases List.mem_append.mp he with he | he
        · exact h e he
        · simp only [List.mem_singleton] at he
          subst he
          constructor <;> simp [toolStartEvent, benign_event]
      have h₂ := benign_run_batch_items parse impl batch
        { st with events := st.events ++ [toolStartEvent] } hstart
      by_cases he₂ : (run_batch_items parse impl batch
          { st with events := st.events ++ [toolStartEvent] }).err.isSome
      · simpa [he₂] using h₂
      · simp only [he₂, if_neg, ite_false, Bool.false_eq_true]
        by_cases ht₂ : MAX_TOOL_CALLS_PER_TURN ≤ (run_batch_items parse impl batch
            { st with events := st.events ++ [toolStartEvent] }).total
        · simpa [ht₂] using h₂
        · simp only [ht₂, if_neg, ite_false]
          rcases hpl : planner round with _ | ⟨n, next⟩
          · simpa using h₂
          · exact ih _ _ _ (by simpa using h₂)

theorem benign_stream_tools_phase (parse : String → Option Json)
    (impl : String → Json → ToolOutcome) (planner : Nat → List ToolCall)
    (plannerContent : Nat → String) (batch : List ToolCall)
    (messages : List Msg) (session : Session) :
    ∀ e ∈ (stream_tools_phase parse impl planner plannerContent batch messages session).events,
      benign_event e := by
  have h₀ := benign_tools_loop parse impl planner plannerContent
    MAX_TOOL_CALLS_PER_TURN 0 batch ⟨session, messages, [], [], 0, [], [], none, false⟩
    (by intro e he; simp at he)
  rw [stream_tools_phase]
  by_cases hg : (tools_loop parse impl planner plannerContent MAX_TOOL_CALLS_PER_TURN 0 batch
      ⟨session, messages, [], [], 0, [], [], none, false⟩).err.isSome = true ∨
      (tools_loop parse impl planner plannerContent MAX_TOOL_CALLS_PER_TURN 0 batch
      ⟨session, messages, [], [], 0, [], [], none, false⟩).exhausted = true
  · simpa [hg] using h₀
  · simp only [hg, if_neg, ite_false]
    have hend : ∀ e ∈ (tools_loop parse impl planner plannerContent MAX_TOOL_CALLS_PER_TURN 0 batch
        ⟨session, messages, [], [], 0, [], [], none, false⟩).events ++ [toolEndEvent],
        benign_event e := by
      intro e he
      rcases List.mem_append.mp he with he | he
      · exact h₀ e he
      · simp only [List.mem_singleton] at he
        subst he
        constructor <;> simp [toolEndEvent, benign_event]
    by_cases hl : has_load_calc_result (tools_loop parse impl planner plannerContent
        MAX_TOOL_CALLS_PER_TURN 0 batch
        ⟨session, messages, [], [], 0, [], [], none, false⟩).session
    · simp only [hl, if_pos, ite_true]
      intro e he
      rcases List.mem_append.mp he with he | he
      · exact hend e he
      · simp only [List.mem_singleton] at he
        subst he
        constructor <;> simp [catalogProgressEvent, benign_event]
    · simpa [hl] using hend

theorem invoke_tool_execs_len (impl : String → Json → ToolOutcome)
    (name : String) (args : Json) (s : Session) :
    (invoke_tool impl name args s).execs.length ≤ 1 := by
  rw [invoke_tool]
  split
  · simp
  · split
    · dsimp only
      cases hdg : dictGet s.cache (tool_cache_key name args) <;> simp [hdg]
    · simp

theorem run_batch_items_total_le (parse : String → Option Json)
    (impl : String → Json → ToolOutcome) :
    ∀ (batch : List ToolCall) (st : ToolsState),
      st.total ≤ MAX_TOOL_CALLS_PER_TURN →
      (run_batch_items parse impl batch st).total ≤ MAX_TOOL_CALLS_PER_TURN := by
  intro batch
  induction batch with
  | nil => intro st h; exact h
  | cons tc rest ih =>
    intro st h
    rw [run_batch_items]
    by_cases h₁ : st.err.isSome
    · simpa [h₁] using h
    · simp only [h₁, if_neg, ite_false, Bool.false_eq_true]
      by_cases h₂ : MAX_TOOL_CALLS_PER_TURN ≤ st.total
      · simpa [h₂] using h
      · simp only [h₂, if_neg, ite_false]
        rcases hp : parse tc.args with _ | fa
        · exact h
        · simp only []
          rcases hout : (invoke_tool impl tc.name fa
              { cache := st.session.cache, turnCalls := st.session.turnCalls,
                state := st.session.state }).outcome with r | e₀
          all_goals simp only [hout]
          · rcases hupd : (sizing_state_update tc.name fa r _).2 with _ | e₁
            all_goals simp only [hupd]
            · refine ih _ ?_
              show st.total + 1 ≤ MAX_TOOL_CALLS_PER_TURN
              simp only [MAX_TOOL_CALLS_PER_TURN] at h₂ ⊢
              omega
            · show st.total + 1 ≤ MAX_TOOL_CALLS_PER_TURN
              simp only [MAX_TOOL_CALLS_PER_TURN] at h₂ ⊢
              omega
          · exact h

theorem run_batch_items_total_mono (parse : String → Option Json)
    (impl : String → Json → ToolOutcome) :
    ∀ (batch : List ToolCall) (st : ToolsState),
      st.total ≤ (run_batch_items parse impl batch st).total := by
  intro batch
  induction batch with
  | nil => intro st; exact le_refl _
  | cons tc rest ih =>
    intro st
    rw [run_batch_items]
    by_cases h₁ : st.err.isSome
    · simp [h₁]
    · simp only [h₁, if_neg, ite_false, Bool.false_eq_true]
      by_cases h₂ : MAX_TOOL_CALLS_PER_TURN ≤ st.total
      · simp [h₂]
      · simp only [h₂, if_neg, ite_false]
        rcases hp : parse tc.args with _ | fa
        · exact le_refl _
        · simp only []
          rcases hout : (invoke_tool impl tc.name fa
              { cache := st.session.cache, turnCalls := st.session.turnCalls,
                state := st.session.state }).outcome with r | e₀
          all_goals simp only [hout]
          · rcases hupd : (sizing_state_update tc.name fa r _).2 with _ | e₁
            all_goals simp only [hupd]
            · exact le_trans (Nat.le_succ st.total) (ih
                ⟨(sizing_state_update tc.name fa r (invoke_tool impl tc.name fa st.session).session).1,
                st.messages ++ [⟨"tool", tool_msg_content tc.name r, [], tc.id, tc.name⟩],
                st.events ++ [toolProgressEvent tc.name] ++ [toolResultEvent tc.name],
                st.results ++ [(tc.name, fa, r)], st.total + 1,
                st.execLog ++ (invoke_tool impl tc.name fa st.session).execs,
                st.planTotals, st.err, st.exhausted⟩)
            · exact Nat.le_succ _
          · exact le_refl _

theorem run_batch_items_total_strict (parse : String → Option Json)
    (impl : String → Json → ToolOutcome) (tc : ToolCall) (rest : List ToolCall)
    (st : ToolsState) (herr : st.err = none)
    (hlt : ¬ MAX_TOOL_CALLS_PER_TURN ≤ st.total)
    (hdone : (run_batch_items parse impl (tc :: rest) st).err = none) :
    st.total < (run_batch_items parse impl (tc :: rest) st).total := by
  rw [run_batch_items] at hdone ⊢
  have h₁ : ¬ st.err.isSome := by simp [herr]
  simp only [h₁, if_neg, ite_false, Bool.false_eq_true] at hdone ⊢
  simp only [hlt, if_neg, ite_false] at hdone ⊢
  rcases hp : parse tc.args with _ | fa
  · simp [hp] at hdone
  · simp only [hp] at hdone ⊢
    rcases hout : (invoke_tool impl tc.name fa
        { cache := st.session.cache, turnCalls := st.session.turnCalls,
          state := st.session.state }).outcome with r | e₀
    all_goals simp only [hout] at hdone ⊢
    · rcases hupd : (sizing_state_update tc.name fa r _).2 with _ | e₁
      all_goals simp only [hupd] at hdone ⊢
      · exact lt_of_lt_of_le (Nat.lt_succ_self st.total)
          (run_batch_items_total_mono parse impl rest
            ⟨(sizing_state_update tc.name fa r (invoke_tool impl tc.name fa st.session).session).1,
                st.messages ++ [⟨"tool", tool_msg_content tc.name r, [], tc.id, tc.name⟩],
                st.events ++ [toolProgressEvent tc.name] ++ [toolResultEvent tc.name],
                st.results ++ [(tc.name, fa, r)], st.total + 1,
                st.execLog ++ (invoke_tool impl tc.name fa st.session).execs,
                st.planTotals, st.err, st.exhausted⟩)
      · simp at hdone
    · simp at hdone

theorem run_batch_items_frame (parse : String → Option Json)
    (impl : String → Json → ToolOutcome) :
    ∀ (batch : List ToolCall) (st : ToolsState),
      (run_batch_items parse impl batch st).exhausted = st.exhausted ∧
      (run_batch_items parse impl batch st).planTotals = st.planTotals := by
  intro batch
  induction batch with
  | nil => intro st; exact ⟨rfl, rfl⟩
  | cons tc rest ih =>
    intro st
    rw [run_batch_items]
    by_cases h₁ : st.err.isSome
    · simp [h₁]
    · simp only [h₁, if_neg, ite_false, Bool.false_eq_true]
      by_cases h₂ : MAX_TOOL_CALLS_PER_TURN ≤ st.total
      · simp [h₂]
      · simp only [h₂, if_neg, ite_false]
        rcases hp : parse tc.args with _ | fa
        · constructor <;> trivial
        · simp only []
          rcases hout : (invoke_tool impl tc.name fa
              { cache := st.session.cache, turnCalls := st.session.turnCalls,
                state := st.session.state }).outcome with r | e₀
          all_goals simp only [hout]
          · rcases hupd : (sizing_state_update tc.name fa r _).2 with _ | e₁
            all_goals simp only [hupd]
            · exact ih _
            · constructor <;> trivial
          · constructor <;> trivial

theorem run_batch_items_execLog (parse : String → Option Json)
    (impl : String → Json → ToolOutcome) :
    ∀ (batch : List ToolCall) (st : ToolsState),
      (run_batch_items parse impl batch st).execLog.length + st.total ≤
        st.execLog.length + (run_batch_items parse impl batch st).total := by
  intro batch
  induction batch with
  | nil => intro st; exact le_refl _
  | cons tc rest ih =>
    intro st
    rw [run_batch_items]
    by_cases h₁ : st.err.isSome
    · simp [h₁]
    · simp only [h₁, if_neg, ite_false, Bool.false_eq_true]
      by_cases h₂ : MAX_TOOL_CALLS_PER_TURN ≤ st.total
      · simp [h₂]
      · simp only [h₂, if_neg, ite_false]
        rcases hp : parse tc.args with _ | fa
        · exact le_refl _
        · simp only []
          rcases hout : (invoke_tool impl tc.name fa
              { cache := st.session.cache, turnCalls := st.session.turnCalls,
                state := st.session.state }).outcome with r | e₀
          all_goals simp only [hout]
          · have hlen := invoke_tool_execs_len impl tc.name fa st.session
            rcases hupd : (sizing_state_update tc.name fa r _).2 with _ | e₁
            all_goals simp only [hupd]
            · show (run_batch_items parse impl rest
                ⟨(sizing_state_update tc.name fa r (invoke_tool impl tc.name fa st.session).session).1,
                st.messages ++ [⟨"tool", tool_msg_content tc.name r, [], tc.id, tc.name⟩],
                st.events ++ [toolProgressEvent tc.name] ++ [toolResultEvent tc.name],
                st.results ++ [(tc.name, fa, r)], st.total + 1,
                st.execLog ++ (invoke_tool impl tc.name fa st.session).execs,
                st.planTotals, st.err, st.exhausted⟩).execLog.length + st.total ≤
                  st.execLog.length + (run_batch_items parse impl rest
                ⟨(sizing_state_update tc.name fa r (invoke_tool impl tc.name fa st.session).session).1,
                st.messages ++ [⟨"tool", tool_msg_content tc.name r, [], tc.id, tc.name⟩],
                st.events ++ [toolProgressEvent tc.name] ++ [toolResultEvent tc.name],
                st.results ++ [(tc.name, fa, r)], st.total + 1,
                st.execLog ++ (invoke_tool impl tc.name fa st.session).execs,
                st.planTotals, st.err, st.exhausted⟩).total
              have hrec := ih
                ⟨(sizing_state_update tc.name fa r (invoke_tool impl tc.name fa st.session).session).1,
                st.messages ++ [⟨"tool", tool_msg_content tc.name r, [], tc.id, tc.name⟩],
                st.events ++ [toolProgressEvent tc.name] ++ [toolResultEvent tc.name],
                st.results ++ [(tc.name, fa, r)], st.total + 1,
                st.execLog ++ (invoke_tool impl tc.name fa st.session).execs,
                st.planTotals, st.err, st.exhausted⟩
              dsimp only at hrec
              simp only [List.length_append] at hrec
              omega
            · show (st.execLog ++ (invoke_tool impl tc.name fa st.session).execs).length +
                  st.total ≤ st.execLog.length + (st.total + 1)
              simp only [List.length_append]
              omega
          · simp

theorem run_batch_items_err_some (parse : String → Option Json)
    (impl : String → Json → ToolOutcome) (batch : List ToolCall)
    (st : ToolsState) (h : st.err.isSome) :
    run_batch_items parse impl batch st = st := by
  cases batch with
  | nil => rfl
  | cons tc rest => rw [run_batch_items]; simp [h]

theorem tools_loop_total_le (parse : String → Option Json)
    (impl : String → Json → ToolOutcome) (planner : Nat → List ToolCall)
    (plannerContent : Nat → String) :
    ∀ (fuel round : Nat) (batch : List ToolCall) (st : ToolsState),
      st.total ≤ MAX_TOOL_CALLS_PER_TURN →
      (tools_loop parse impl planner plannerContent fuel round batch st).total ≤
        MAX_TOOL_CALLS_PER_TURN := by
  intro fuel
  induction fuel with
  | zero =>
    intro round batch st h
    rw [tools_loop]
    by_cases hg : batch = [] ∨ MAX_TOOL_CALLS_PER_TURN ≤ st.total
    · simpa [hg] using h
    · simpa [hg] using h
  | succ fuel₁ ih =>
    intro round batch st h
    rw [tools_loop]
    by_cases hg : batch = [] ∨ MAX_TOOL_CALLS_PER_TURN ≤ st.total
    · simpa [hg] using h
    · simp only [hg, if_neg, ite_false]
      have h₂ := run_batch_items_total_le parse impl batch
        { st with events := st.events ++ [toolStartEvent] } h
      by_cases he₂ : (run_batch_items parse impl batch
          { st with events := st.events ++ [toolStartEvent] }).err.isSome
      · simpa [he₂] using h₂
      · simp only [he₂, if_neg, ite_false, Bool.false_eq_true]
        by_cases ht₂ : MAX_TOOL_CALLS_PER_TURN ≤ (run_batch_items parse impl batch
            { st with events := st.events ++ [toolStartEvent] }).total
        · simpa [ht₂] using h₂
        · simp only [ht₂, if_neg, ite_false]
          rcases hpl : planner round with _ | ⟨n, next⟩
          · simpa using h₂
          · exact ih _ _ _ (by simpa using h₂)

theorem tools_loop_no_exhaust (parse : String → Option Json)
    (impl : String → Json → ToolOutcome) (planner : Nat → List ToolCall)
    (plannerContent : Nat → String) :
    ∀ (fuel round : Nat) (batch : List ToolCall) (st : ToolsState),
      st.exhausted = false →
      MAX_TOOL_CALLS_PER_TURN ≤ fuel + st.total →
      (tools_loop parse impl planner plannerContent fuel round batch st).exhausted = false := by
  intro fuel
  induction fuel with
  | zero =>
    intro round batch st hex hf
    rw [tools_loop]
    by_cases hg : batch = [] ∨ MAX_TOOL_CALLS_PER_TURN ≤ st.total
    · simpa [hg] using hex
    · exact absurd (Or.inr (by simpa using hf)) hg
  | succ fuel₁ ih =>
    intro round batch st hex hf
    rw [tools_loop]
    by_cases hg : batch = [] ∨ MAX_TOOL_CALLS_PER_TURN ≤ st.total
    · simpa [hg] using hex
    · simp only [hg, if_neg, ite_false]
      have hx₂ : (run_batch_items parse impl batch
          { st with events := st.events ++ [toolStartEvent] }).exhausted = false := by
        have := (run_batch_items_frame parse impl batch
          { st with events := st.events ++ [toolStartEvent] }).1
        simpa [this] using hex
      by_cases he₂ : (run_batch_items parse impl batch
          { st with events := st.events ++ [toolStartEvent] }).err.isSome
      · simpa [he₂] using hx₂
      · simp only [he₂, if_neg, ite_false, Bool.false_eq_true]
        by_cases ht₂ : MAX_TOOL_CALLS_PER_TURN ≤ (run_batch_items parse impl batch
            { st with events := st.events ++ [toolStartEvent] }).total
        · simpa [ht₂] using hx₂
        · simp only [ht₂, if_neg, ite_false]
          rcases hpl : planner round with _ | ⟨n, next⟩
          · simpa using hx₂
          · refine ih _ _ _ (by simpa using hx₂) ?_
            have hne : batch ≠ [] := fun hb => hg (Or.inl hb)
            rcases batch with _ | ⟨tc, rest⟩
            · exact absurd rfl hne
            · have herr₁ : ¬ ({ st with events := st.events ++ [toolStartEvent] } :
                  ToolsState).err.isSome := by
                intro hs
                have := run_batch_items_err_some parse impl (tc :: rest)
                  { st with events := st.events ++ [toolStartEvent] } hs
                rw [this] at he₂
                exact he₂ hs
              have herr₂ : ({ st with events := st.events ++ [toolStartEvent] } :
                  ToolsState).err = none :=
                Option.not_isSome_iff_eq_none.mp herr₁
              have hstrict := run_batch_items_total_strict parse impl tc rest
                { st with events := st.events ++ [toolStartEvent] } herr₂
                (by simpa using fun hh => hg (Or.inr hh)) ?_
              · simp only [] at hstrict
                have hfr : MAX_TOOL_CALLS_PER_TURN ≤ fuel₁ + 1 + st.total := hf
                simp only [MAX_TOOL_CALLS_PER_TURN] at hfr hstrict ⊢
                omega
              · exact Option.not_isSome_iff_eq_none.mp he₂

theorem tools_loop_planTotals (parse : String → Option Json)
    (impl : String → Json → ToolOutcome) (planner : Nat → List ToolCall)
    (plannerContent : Nat → String) :
    ∀ (fuel round : Nat) (batch : List ToolCall) (st : ToolsState),
      (∀ t ∈ st.planTotals, t < MAX_TOOL_CALLS_PER_TURN) →
      ∀ t ∈ (tools_loop parse impl planner plannerContent fuel round batch st).planTotals,
        t < MAX_TOOL_CALLS_PER_TURN := by
  intro fuel
  induction fuel with
  | zero =>
    intro round batch st h
    rw [tools_loop]
    by_cases hg : batch = [] ∨ MAX_TOOL_CALLS_PER_TURN ≤ st.total
    · simpa [hg] using h
    · simpa [hg] using h
  | succ fuel₁ ih =>
    intro round batch st h
    rw [tools_loop]
    by_cases hg : batch = [] ∨ MAX_TOOL_CALLS_PER_TURN ≤ st.total
    · simpa [hg] using h
    · simp only [hg, if_neg, ite_false]
      have hpl₂ : (run_batch_items parse impl batch
          { st with events := st.events ++ [toolStartEvent] }).planTotals = st.planTotals :=
        (run_batch_items_frame parse impl batch
          { st with events := st.events ++ [toolStartEvent] }).2
      have h₂ : ∀ t ∈ (run_batch_items parse impl batch
          { st with events := st.events ++ [toolStartEvent] }).planTotals,
          t < MAX_TOOL_CALLS_PER_TURN := by
        rw [hpl₂]; exact h
      by_cases he₂ : (run_batch_items parse impl batch
          { st with events := st.events ++ [toolStartEvent] }).err.isSome
      · simpa [he₂] using h₂
      · simp only [he₂, if_neg, ite_false, Bool.false_eq_true]
        by_cases ht₂ : MAX_TOOL_CALLS_PER_TURN ≤ (run_batch_items parse impl batch
            { st with events := st.events ++ [toolStartEvent] }).total
        · simpa [ht₂] using h₂
        · simp only [ht₂, if_neg, ite_false]
          have h₃ : ∀ t ∈ (run_batch_items parse impl batch
              { st with events := st.events ++ [toolStartEvent] }).planTotals ++
              [(run_batch_items parse impl batch
                { st with events := st.events ++ [toolStartEvent] }).total],
              t < MAX_TOOL_CALLS_PER_TURN := by
            intro t ht
            rcases List.mem_append.mp ht with ht | ht
            · exact h₂ t ht
            · simp only [List.mem_singleton] at ht
              subst ht
              omega
          rcases hpl : planner round with _ | ⟨n, next⟩
          · simpa using h₃
          · exact ih _ _ _ (by simpa using h₃)

theorem tools_loop_execLog (parse : String → Option Json)
    (impl : String → Json → ToolOutcome) (planner : Nat → List ToolCall)
    (plannerContent : Nat → String) :
    ∀ (fuel round : Nat) (batch : List ToolCall) (st : ToolsState),
      (tools_loop parse impl planner plannerContent fuel round batch st).execLog.length +
        st.total ≤
      st.execLog.length +
        (tools_loop parse impl planner plannerContent fuel round batch st).total := by
  intro fuel
  induction fuel with
  | zero =>
    intro round batch st
    rw [tools_loop]
    by_cases hg : batch = [] ∨ MAX_TOOL_CALLS_PER_TURN ≤ st.total
    · simp [hg]
    · simp [hg]
  | succ fuel₁ ih =>
    intro round batch st
    rw [tools_loop]
    by_cases hg : batch = [] ∨ MAX_TOOL_CALLS_PER_TURN ≤ st.total
    · simp [hg]
    · simp only [hg, if_neg, ite_false]
      set B := run_batch_items parse impl batch
        { st with events := st.events ++ [toolStartEvent] } with hB
      have h₂ := run_batch_items_execLog parse impl batch
        { st with events := st.events ++ [toolStartEvent] }
      rw [← hB] at h₂
      dsimp only at h₂
      by_cases he₂ : B.err.isSome
      · simpa [he₂] using h₂
      · simp only [he₂, if_neg, ite_false, Bool.false_eq_true]
        by_cases ht₂ : MAX_TOOL_CALLS_PER_TURN ≤ B.total
        · simpa [ht₂] using h₂
        · simp only [ht₂, if_neg, ite_false]
          rcases hpl : planner round with _ | ⟨n, next⟩
          · simpa using h₂
          · dsimp only
            have h₃ := ih (round + 1) (n :: next)
              ⟨B.session, B.messages ++ [Msg.mk "assistant" (plannerContent round) (n :: next) "" ""],
               B.events, B.results, B.total, B.execLog, B.planTotals ++ [B.total],
               B.err, B.exhausted⟩
            dsimp only at h₃
            omega

/-- C9: the claim that a turn holds the session lock from before any
history or tool_cache access until after the final event and the save is
false of the code: get_or_create_session releases the (global) lock right
after the lookup, and every subsequent access of the turn runs unlocked. -/
theorem C9_counterexample : claimed_lock_extent streaming_turn_trace = false := by decide

/-- C9 (amended): the only critical section is the session-map lookup or
creation inside get_or_create_session; every history or tool_cache access
of the streaming turn, the final event and the save run with no lock
held, so concurrent turns on one session id are not serialized by this
subsystem. -/
theorem C9_lock_guards_only_lookup :
    ops_under_lock streaming_turn_trace = [SOp.lockAcquire, SOp.sessionLookup, SOp.lockRelease] ∧
    ((lock_depths streaming_turn_trace).filter fun p => touches_session_state p.1).all
      (fun p => p.2 == 0) = true ∧
    ((lock_depths streaming_turn_trace).filter fun p =>
      p.1 == SOp.emitFinal || p.1 == SOp.persistSession).all (fun p => p.2 == 0) = true := by
  refine ⟨by decide, by decide, by decide⟩

/-- C7: the orchestrator's own cache key (main.py invoke_tool) is not the
compact no-whitespace serialization the claim states: json.dumps with the
default separators puts a space after each comma and colon. -/
theorem C7_counterexample :
    tool_cache_key "calculate_dehum_load" (.obj [("b", .num 2), ("a", .num 1)]) ≠
      "calculate_dehum_load" ++ "|" ++ "\x7b\"a\":1,\"b\":2\x7d" ∧
    tool_cache_key "calculate_dehum_load" (.obj [("b", .num 2), ("a", .num 1)]) =
      "calculate_dehum_load|\x7b\"a\": 1, \"b\": 2\x7d" ∧
    make_tool_key "calculate_dehum_load" (.obj [("b", .num 2), ("a", .num 1)]) =
      "calculate_dehum_load|\x7b\"a\":1,\"b\":2\x7d" := by
  refine ⟨by decide, by decide, by decide⟩

/-- C7 (amended): both cache-key builders sort the argument keys, so two
calls with identical name and arguments produce the same key regardless
of the order in which the argument entries arrive; _make_tool_key emits
the compact form, while invoke_tool's key keeps the Python default
separators and therefore contains whitespace. -/
theorem C7_cache_key_order_independent (name : String)
    (fs₁ fs₂ : List (String × Json)) (hp : fs₁.Perm fs₂)
    (hnd : (fs₁.map Prod.fst).Nodup) :
    tool_cache_key name (.obj fs₁) = tool_cache_key name (.obj fs₂) ∧
    make_tool_key name (.obj fs₁) = make_tool_key name (.obj fs₂) :=
  cache_key_perm_invariant name hp hnd

/-- Witness for C7 at a concrete pair of argument orderings. -/
theorem C7_cache_key_order_independent_witness :
    ([("b", Json.num 2), ("a", Json.num 1)]).Perm [("a", Json.num 1), ("b", Json.num 2)] ∧
    (([("b", Json.num 2), ("a", Json.num 1)]).map Prod.fst).Nodup ∧
    (tool_cache_key "calculate_dehum_load" (.obj [("b", .num 2), ("a", .num 1)]) =
      tool_cache_key "calculate_dehum_load" (.obj [("a", .num 1), ("b", .num 2)]) ∧
    make_tool_key "calculate_dehum_load" (.obj [("b", .num 2), ("a", .num 1)]) =
      make_tool_key "calculate_dehum_load" (.obj [("a", .num 1), ("b", .num 2)])) :=
  ⟨by decide, by decide,
    C7_cache_key_order_independent "calculate_dehum_load" _ _ (by decide) (by decide)⟩

/-- C8: for every temperature and humidity input the derate factor stays
in the band from 0.1 to 1.0; the clamped empirical curve is monotonically
non-decreasing; and on any input with positive relative humidity the
factor is exactly that monotone curve applied to the dew point, so the
factor is monotonically non-decreasing in the dew point. -/
theorem C8_derate_bounded_and_monotone :
    (∀ t r : ℝ, 0.1 ≤ derate_factor t r ∧ derate_factor t r ≤ 1) ∧
    (∀ a b : ℝ, a ≤ b → derate_curve a ≤ derate_curve b) ∧
    (∀ t r : ℝ, 0 < r → derate_factor t r = derate_curve (dew_point t r)) := by
  refine ⟨?_, ?_, ?_⟩
  · intro t r
    rw [derate_factor]
    dsimp only
    split
    · constructor <;> norm_num
    · split
      · constructor <;> norm_num
      · constructor
        · exact le_min (by norm_num) (le_max_left _ _)
        · exact min_le_left _ _
  · intro a b hab
    rw [derate_curve, derate_curve]
    have h₀ : (0:ℝ) ≤ max a 0 / 26 := div_nonneg (le_max_right _ _) (by norm_num)
    have h₁ : max a 0 / 26 ≤ max b 0 / 26 :=
      (div_le_div_iff_of_pos_right (by norm_num : (0:ℝ) < 26)).mpr (max_le_max hab le_rfl)
    have h₂ := Real.rpow_le_rpow h₀ h₁ (by norm_num : (0:ℝ) ≤ 1.5)
    exact min_le_min le_rfl (max_le_max le_rfl h₂)
  · intro t r hr
    have hrc : 0 < max 0 (min 100 r) := lt_max_of_lt_right (lt_min (by norm_num) hr)
    have hsvp : 0 < saturation_vp_kpa (max (-50) (min 60 t)) := by
      rw [saturation_vp_kpa]
      exact mul_pos (by norm_num) (Real.exp_pos _)
    have hpv : 0 < (max 0 (min 100 r) / 100) * saturation_vp_kpa (max (-50) (min 60 t)) :=
      mul_pos (div_pos hrc (by norm_num)) hsvp
    rw [derate_factor, dew_point, derate_curve]
    dsimp only
    rw [if_neg (not_le.mpr hrc), if_neg (not_le.mpr hpv)]

/-- Witness for C8: the monotone curve at zero and one, and the dew-point
factorization at 25 degrees and 60 percent. -/
theorem C8_derate_bounded_and_monotone_witness :
    ((0:ℝ) ≤ 1 ∧ derate_curve 0 ≤ derate_curve 1) ∧
    ((0:ℝ) < 60 ∧ derate_factor 25 60 = derate_curve (dew_point 25 60)) :=
  ⟨⟨by norm_num, C8_derate_bounded_and_monotone.2.1 0 1 (by norm_num)⟩,
   ⟨by norm_num, C8_derate_bounded_and_monotone.2.2 25 60 (by norm_num)⟩⟩

theorem contains_append_self (l : List String) (k : String) :
    (l ++ [k]).contains k = true := by
  simp [List.elem_iff]

/-- C2: invoking the same tool name and argument pair twice within one
turn does not return the byte-identical first result from the cache: the
second invocation is answered with the skipped-duplicate marker dict. -/
theorem C2_counterexample :
    (invoke_tool probe_impl "pulldown_air_l" probe_args empty_session).outcome =
      .ok (.obj [("total_lpd", .num 42)]) ∧
    (invoke_tool probe_impl "pulldown_air_l" probe_args
      (invoke_tool probe_impl "pulldown_air_l" probe_args empty_session).session).outcome =
      .ok skippedDuplicate ∧
    (invoke_tool probe_impl "pulldown_air_l" probe_args
      (invoke_tool probe_impl "pulldown_air_l" probe_args empty_session).session).outcome ≠
      (invoke_tool probe_impl "pulldown_air_l" probe_args empty_session).outcome := by
  refine ⟨by decide, by decide, by decide⟩

/-- C2 (amended): a repeated name-and-arguments pair executes the
underlying registry function exactly once.  A repeat within the same turn
is answered by the skipped-duplicate marker, not the cached result; a
repeat in a later turn of the session, after the per-turn set is deleted,
returns the byte-identical cached result without re-executing. -/
theorem C2_duplicate_suppression (impl : String → Json → ToolOutcome)
    (name : String) (args : Json) (s : Session)
    (hknown : known_tool_names.contains name = true)
    (hfresh : s.turnCalls.contains (tool_cache_key name args) = false)
    (hmiss : dictGet s.cache (tool_cache_key name args) = none) :
    (invoke_tool impl name args s).execs = [(name, args)] ∧
    (invoke_tool impl name args (invoke_tool impl name args s).session).outcome =
      .ok skippedDuplicate ∧
    (invoke_tool impl name args (invoke_tool impl name args s).session).execs = [] ∧
    (invoke_tool impl name args
      (clear_turn_calls (invoke_tool impl name args s).session)).outcome =
      (invoke_tool impl name args s).outcome ∧
    (invoke_tool impl name args
      (clear_turn_calls (invoke_tool impl name args s).session)).execs = [] := by
  have hfirst : invoke_tool impl name args s =
      InvokeOut.mk (.ok (invoke_result impl name args))
        (Session.mk (dictSet s.cache (tool_cache_key name args) (invoke_result impl name args))
          (s.turnCalls ++ [tool_cache_key name args]) s.state)
        [(name, args)] := by
    rw [invoke_tool]
    simp only [hfresh, Bool.false_eq_true, if_neg, ite_false, hknown, if_pos, ite_true, hmiss]
  rw [hfirst]
  dsimp only
  refine ⟨rfl, ?_, ?_, ?_, ?_⟩
  · rw [invoke_tool]
    simp [contains_append_self]
  · rw [invoke_tool]
    simp [contains_append_self]
  · rw [clear_turn_calls]
    rw [invoke_tool]
    dsimp only
    simp only [List.contains_nil, Bool.false_eq_true, if_neg, ite_false,
      hknown, if_pos, ite_true, dictGet_dictSet_self]
  · rw [clear_turn_calls]
    rw [invoke_tool]
    dsimp only
    simp only [List.contains_nil, Bool.false_eq_true, if_neg, ite_false,
      hknown, if_pos, ite_true, dictGet_dictSet_self]

/-- Witness for C2 at the concrete fixture call. -/
theorem C2_duplicate_suppression_witness :
    (known_tool_names.contains "pulldown_air_l" = true ∧
     empty_session.turnCalls.contains (tool_cache_key "pulldown_air_l" probe_args) = false ∧
     dictGet empty_session.cache (tool_cache_key "pulldown_air_l" probe_args) = none) ∧
    ((invoke_tool probe_impl "pulldown_air_l" probe_args empty_session).execs =
      [("pulldown_air_l", probe_args)] ∧
    (invoke_tool probe_impl "pulldown_air_l" probe_args
      (invoke_tool probe_impl "pulldown_air_l" probe_args empty_session).session).outcome =
      .ok skippedDuplicate ∧
    (invoke_tool probe_impl "pulldown_air_l" probe_args
      (invoke_tool probe_impl "pulldown_air_l" probe_args empty_session).session).execs = [] ∧
    (invoke_tool probe_impl "pulldown_air_l" probe_args
      (clear_turn_calls (invoke_tool probe_impl "pulldown_air_l" probe_args
        empty_session).session)).outcome =
      (invoke_tool probe_impl "pulldown_air_l" probe_args empty_session).outcome ∧
    (invoke_tool probe_impl "pulldown_air_l" probe_args
      (clear_turn_calls (invoke_tool probe_impl "pulldown_air_l" probe_args
        empty_session).session)).execs = []) :=
  ⟨⟨by decide, by decide, by decide⟩,
    C2_duplicate_suppression probe_impl "pulldown_air_l" probe_args empty_session
      (by decide) (by decide) (by decide)⟩

/-- A cache key is acceptable after ToolExecutor ran when it was there
before or was written for a tool other than document retrieval. -/
def exec_key_ok (cache₀ : List (String × Json)) (k : String) : Prop :=
  (dictGet cache₀ k).isSome = true ∨
    ∃ n a, k = make_tool_key n a ∧ n ≠ "retrieve_relevant_docs"

theorem executor_step_keys (parse : String → Option Json)
    (impl : String → Json → ToolOutcome) (c : ExecCall) (st : ExecState)
    (cache₀ : List (String × Json))
    (h : ∀ k, (dictGet st.tool_cache k).isSome = true → exec_key_ok cache₀ k) :
    ∀ k, (dictGet (executor_execute_step parse impl c st).tool_cache k).isSome = true →
      exec_key_ok cache₀ k := by
  intro k hk
  rw [executor_execute_step] at hk
  by_cases h₁ : st.err.isSome
  · rw [if_pos h₁] at hk
    exact h k hk
  · rw [if_neg h₁] at hk
    dsimp only at hk
    split at hk
    · exact h k hk
    · split at hk
      · split at hk
        · exact h k hk
        · by_cases hu : (c.name != "retrieve_relevant_docs") = true
          · rw [if_pos hu] at hk
            rcases dictGet_dictSet_isSome _ _ _ _ hk with hkey | hprev
            · right
              subst hkey
              exact ⟨c.name, _, rfl, by simpa using hu⟩
            · exact h k hprev
          · rw [if_neg hu] at hk
            exact h k hk
      · exact h k hk

theorem executor_foldl_keys (parse : String → Option Json)
    (impl : String → Json → ToolOutcome) (cache₀ : List (String × Json)) :
    ∀ (calls : List ExecCall) (st : ExecState),
      (∀ k, (dictGet st.tool_cache k).isSome = true → exec_key_ok cache₀ k) →
      ∀ k, (dictGet (calls.foldl
          (fun st₁ c => executor_execute_step parse impl c st₁) st).tool_cache k).isSome = true →
        exec_key_ok cache₀ k := by
  intro calls
  induction calls with
  | nil => intro st h; exact h
  | cons c rest ih =>
    intro st h
    exact ih _ (executor_step_keys parse impl c st cache₀ h)

theorem executor_step_retrieval_cache (parse : String → Option Json)
    (impl : String → Json → ToolOutcome) (c : ExecCall) (st : ExecState)
    (hname : c.name = "retrieve_relevant_docs") :
    (executor_execute_step parse impl c st).tool_cache = st.tool_cache := by
  rw [executor_execute_step]
  by_cases h₁ : st.err.isSome
  · rw [if_pos h₁]
  · rw [if_neg h₁]
    simp only [hname, bne_self_eq_false, Bool.false_eq_true, if_neg, ite_false]
    try dsimp only
    split
    · split <;> rfl
    · rfl

/-- C6: the claim that the document-retrieval tool is never cached is
false for the live orchestrator: main.py invoke_tool stores every result
in session["cache"], the retrieval tool included. -/
theorem C6_counterexample :
    dictGet (invoke_tool probe_impl "retrieve_relevant_docs"
        (.obj [("query", .str "manual")]) empty_session).session.cache
      (tool_cache_key "retrieve_relevant_docs" (.obj [("query", .str "manual")])) =
      some (.obj [("total_lpd", .num 42)]) := by decide

/-- C6 (amended): only the class-based executor in tool_executor.py
leaves the document-retrieval tool out of the cache: after any sequence
of calls through ToolExecutor.execute, every key of the tool_cache is
either inherited or was written by a non-retrieval tool, and a single
retrieval call leaves the cache untouched; the orchestrator path in
main.py (invoke_tool) caches the retrieval result like any other. -/
theorem C6_retrieval_caching (parse : String → Option Json)
    (impl : String → Json → ToolOutcome) (calls : List ExecCall)
    (cache₀ : List (String × Json)) (raw : String) (args : Json) (s : Session)
    (h₀ : ∀ k, (dictGet cache₀ k).isSome = true → exec_key_ok cache₀ k)
    (hfresh : s.turnCalls.contains
      (tool_cache_key "retrieve_relevant_docs" args) = false)
    (hmiss : dictGet s.cache (tool_cache_key "retrieve_relevant_docs" args) = none) :
    (∀ k, (dictGet (executor_execute parse impl calls cache₀).tool_cache k).isSome = true →
      exec_key_ok cache₀ k) ∧
    (executor_execute parse impl [ExecCall.mk "retrieve_relevant_docs" raw] cache₀).tool_cache =
      cache₀ ∧
    dictGet (invoke_tool impl "retrieve_relevant_docs" args s).session.cache
      (tool_cache_key "retrieve_relevant_docs" args) =
      some (invoke_result impl "retrieve_relevant_docs" args) := by
  refine ⟨?_, ?_, ?_⟩
  · rw [executor_execute]
    exact executor_foldl_keys parse impl cache₀ calls _ h₀
  · rw [executor_execute]
    simp only [List.foldl]
    exact executor_step_retrieval_cache parse impl _ _ rfl
  · have hknown : known_tool_names.contains "retrieve_relevant_docs" = true := by decide
    rw [invoke_tool]
    simp only [hfresh, Bool.false_eq_true, if_neg, ite_false, hknown, if_pos, ite_true]
    try dsimp only
    simp only [hmiss]
    rw [dictGet_dictSet_self]

/-- Witness for C6 at concrete inputs. -/
theorem C6_retrieval_caching_witness :
    ((∀ k, (dictGet ([] : List (String × Json)) k).isSome = true → exec_key_ok [] k) ∧
     empty_session.turnCalls.contains
       (tool_cache_key "retrieve_relevant_docs" (.obj [("query", .str "manual")])) = false ∧
     dictGet empty_session.cache
       (tool_cache_key "retrieve_relevant_docs" (.obj [("query", .str "manual")])) = none) ∧
    ((∀ k, (dictGet (executor_execute probe_parse probe_impl
        [ExecCall.mk "calculate_dehum_load" "\x7b\x7d"] []).tool_cache k).isSome = true →
        exec_key_ok [] k) ∧
    (executor_execute probe_parse probe_impl
      [ExecCall.mk "retrieve_relevant_docs" "\x7b\x7d"] []).tool_cache = [] ∧
    dictGet (invoke_tool probe_impl "retrieve_relevant_docs"
        (.obj [("query", .str "manual")]) empty_session).session.cache
      (tool_cache_key "retrieve_relevant_docs" (.obj [("query", .str "manual")])) =
      some (invoke_result probe_impl "retrieve_relevant_docs"
        (.obj [("query", .str "manual")]))) :=
  ⟨⟨fun k hk => by simp [dictGet] at hk, by decide, by decide⟩,
    C6_retrieval_caching probe_parse probe_impl
      [ExecCall.mk "calculate_dehum_load" "\x7b\x7d"] [] "\x7b\x7d"
      (.obj [("query", .str "manual")]) empty_session
      (fun k hk => by simp [dictGet] at hk) (by decide) (by decide)⟩

theorem invoke_tool_unknown (impl : String → Json → ToolOutcome)
    (name : String) (args : Json) (s : Session)
    (hunk : known_tool_names.contains name = false)
    (hfresh : s.turnCalls.contains (tool_cache_key name args) = false) :
    invoke_tool impl name args s =
      ⟨.raised ("Unknown tool: " ++ name),
        Session.mk s.cache (s.turnCalls ++ [tool_cache_key name args]) s.state, []⟩ := by
  rw [invoke_tool]
  simp only [hfresh, Bool.false_eq_true, if_neg, ite_false, hunk]

theorem run_batch_items_unknown_first (parse : String → Option Json)
    (impl : String → Json → ToolOutcome) (tc : ToolCall) (rest : List ToolCall)
    (st : ToolsState) (a : Json)
    (herr : st.err.isSome = false)
    (hlt : ¬ MAX_TOOL_CALLS_PER_TURN ≤ st.total)
    (hparse : parse tc.args = some a)
    (hunk : known_tool_names.contains tc.name = false)
    (hfresh : st.session.turnCalls.contains (tool_cache_key tc.name a) = false) :
    (run_batch_items parse impl (tc :: rest) st).err =
      some ("Unknown tool: " ++ tc.name) ∧
    (run_batch_items parse impl (tc :: rest) st).events =
      st.events ++ [toolProgressEvent tc.name] := by
  rw [run_batch_items]
  simp only [herr, Bool.false_eq_true, if_neg, ite_false]
  simp only [hlt, if_neg, ite_false]
  simp only [hparse]
  rw [invoke_tool_unknown impl tc.name a st.session hunk hfresh]
  exact ⟨rfl, rfl⟩

theorem tools_loop_unknown_first (parse : String → Option Json)
    (impl : String → Json → ToolOutcome) (planner : Nat → List ToolCall)
    (plannerContent : Nat → String) (fuel₁ round : Nat) (tc : ToolCall)
    (rest : List ToolCall) (st : ToolsState) (a : Json)
    (herr : st.err.isSome = false)
    (hlt : ¬ MAX_TOOL_CALLS_PER_TURN ≤ st.total)
    (hparse : parse tc.args = some a)
    (hunk : known_tool_names.contains tc.name = false)
    (hfresh : st.session.turnCalls.contains (tool_cache_key tc.name a) = false) :
    (tools_loop parse impl planner plannerContent (fuel₁ + 1) round (tc :: rest) st).err =
      some ("Unknown tool: " ++ tc.name) ∧
    (tools_loop parse impl planner plannerContent (fuel₁ + 1) round (tc :: rest) st).events =
      st.events ++ [toolStartEvent, toolProgressEvent tc.name] := by
  rw [tools_loop]
  have hg : ¬ (tc :: rest = [] ∨ MAX_TOOL_CALLS_PER_TURN ≤ st.total) := by
    push_neg
    exact ⟨by simp, not_le.mp hlt⟩
  rw [if_neg hg]
  have h₂ := run_batch_items_unknown_first parse impl tc rest
    { st with events := st.events ++ [toolStartEvent] } a herr hlt hparse hunk hfresh
  have hsome : (run_batch_items parse impl (tc :: rest)
      { st with events := st.events ++ [toolStartEvent] }).err.isSome = true := by
    rw [h₂.1]; rfl
  simp only [hsome, if_pos, ite_true]
  refine ⟨h₂.1, ?_⟩
  rw [h₂.2]
  simp

/-- C5: an unknown function name makes invoke_tool raise a ValueError
rather than return a structured unknown-tool error dict, and the
exception aborts the whole turn: the run ends with an escaped error and
no final event at all. -/
theorem C5_counterexample :
    (invoke_tool probe_impl "get_weather" (.obj []) empty_session).outcome =
      .raised "Unknown tool: get_weather" ∧
    (invoke_tool probe_impl "get_weather" (.obj []) empty_session).outcome ≠
      .ok (.obj [("error", .str "unknown_tool")]) ∧
    (process_chat_streaming probe_parse probe_impl (fun _ => []) (fun _ => "")
      probe_chunks_unknown ["Rec"] [] empty_session "hi").err =
      some "Unknown tool: get_weather" ∧
    (process_chat_streaming probe_parse probe_impl (fun _ => []) (fun _ => "")
      probe_chunks_unknown ["Rec"] [] empty_session "hi").events.all
      (fun e => !e.isFinal) = true := by
  refine ⟨by decide, by decide, by decide, by decide⟩

/-- C5 (amended): a tool call whose function name is not in the registry
makes invoke_tool raise ValueError with the unknown-tool message, without
executing anything or touching the cache; the exception is not caught
inside the turn, so when the first assembled call has an unknown name the
turn aborts with that error and never reaches a final event. -/
theorem C5_unknown_tool_fatal :
    (∀ (impl : String → Json → ToolOutcome) (name : String) (args : Json) (s : Session),
      known_tool_names.contains name = false →
      s.turnCalls.contains (tool_cache_key name args) = false →
      (invoke_tool impl name args s).outcome = .raised ("Unknown tool: " ++ name) ∧
      (invoke_tool impl name args s).execs = [] ∧
      (invoke_tool impl name args s).session.cache = s.cache) ∧
    (∀ (parse : String → Option Json) (impl : String → Json → ToolOutcome)
      (planner : Nat → List ToolCall) (plannerContent : Nat → String)
      (ichunks : List Chunk) (rchunks : List String) (msgs : List Msg)
      (sess : Session) (user : String) (tc : ToolCall) (rest : List ToolCall) (a : Json),
      finalize_tool_calls parse (assembleToolCalls ichunks) = tc :: rest →
      known_tool_names.contains tc.name = false →
      parse tc.args = some a →
      sess.turnCalls = [] →
      (process_chat_streaming parse impl planner plannerContent ichunks rchunks
        msgs sess user).err = some ("Unknown tool: " ++ tc.name) ∧
      ∀ e ∈ (process_chat_streaming parse impl planner plannerContent ichunks rchunks
        msgs sess user).events, e.isFinal = false) := by
  constructor
  · intro impl name args s hunk hfresh
    rw [invoke_tool_unknown impl name args s hunk hfresh]
    exact ⟨rfl, rfl, rfl⟩
  · intro parse impl planner plannerContent ichunks rchunks msgs sess user tc rest a
      hfin hunk hparse hturn
    have hkey : (⟨sess, msgs ++ [Msg.mk "assistant" (accumulate_content ichunks) (tc :: rest) "" ""],
        [], [], 0, [], [], none, false⟩ : ToolsState).session.turnCalls.contains
        (tool_cache_key tc.name a) = false := by
      dsimp only
      rw [hturn]
      rfl
    have hloop := tools_loop_unknown_first parse impl planner plannerContent 3 0 tc rest
      ⟨sess, msgs ++ [Msg.mk "assistant" (accumulate_content ichunks) (tc :: rest) "" ""],
        [], [], 0, [], [], none, false⟩ a rfl (by simp [MAX_TOOL_CALLS_PER_TURN]) hparse hunk hkey
    have hst : stream_tools_phase parse impl planner plannerContent (tc :: rest)
        (msgs ++ [Msg.mk "assistant" (accumulate_content ichunks) (tc :: rest) "" ""]) sess =
        tools_loop parse impl planner plannerContent (3 + 1) 0 (tc :: rest)
          ⟨sess, msgs ++ [Msg.mk "assistant" (accumulate_content ichunks) (tc :: rest) "" ""],
            [], [], 0, [], [], none, false⟩ := by
      rw [stream_tools_phase]
      have hor : (tools_loop parse impl planner plannerContent MAX_TOOL_CALLS_PER_TURN 0
          (tc :: rest) ⟨sess, msgs ++ [Msg.mk "assistant" (accumulate_content ichunks)
            (tc :: rest) "" ""], [], [], 0, [], [], none, false⟩).err.isSome = true ∨
          (tools_loop parse impl planner plannerContent MAX_TOOL_CALLS_PER_TURN 0
          (tc :: rest) ⟨sess, msgs ++ [Msg.mk "assistant" (accumulate_content ichunks)
            (tc :: rest) "" ""], [], [], 0, [], [], none, false⟩).exhausted = true := by
        left
        rw [(by rfl : MAX_TOOL_CALLS_PER_TURN = 3 + 1), hloop.1]
        rfl
      rw [if_pos hor, (by rfl : MAX_TOOL_CALLS_PER_TURN = 3 + 1)]
    rw [process_chat_streaming]
    simp only [hfin]
    have htr : initial_transition (tc :: rest) user = Phase.tools := by
      rw [initial_transition]
      simp
    rw [htr]
    dsimp only
    rw [hst]
    have herr₂ : (tools_loop parse impl planner plannerContent (3 + 1) 0 (tc :: rest)
        ⟨sess, msgs ++ [Msg.mk "assistant" (accumulate_content ichunks) (tc :: rest) "" ""],
          [], [], 0, [], [], none, false⟩).err = some ("Unknown tool: " ++ tc.name) :=
      hloop.1
    rw [herr₂]
    dsimp only
    refine ⟨rfl, ?_⟩
    intro e he
    rw [hloop.2] at he
    rcases List.mem_append.mp he with he | he
    · exact (benign_initial_events ichunks e he).1
    · simp only [List.nil_append, List.mem_cons, List.mem_singleton] at he
      rcases he with he | he | he
      · rw [he]; rfl
      · rw [he]; rfl
      · exact absurd he (by simp)

/-- Witness for C5 at concrete inputs. -/
theorem C5_unknown_tool_fatal_witness :
    (known_tool_names.contains "get_weather" = false ∧
     empty_session.turnCalls.contains (tool_cache_key "get_weather" (.obj [])) = false ∧
     (invoke_tool probe_impl "get_weather" (.obj []) empty_session).outcome =
       .raised ("Unknown tool: " ++ "get_weather")) ∧
    (finalize_tool_calls probe_parse (assembleToolCalls probe_chunks_unknown) =
      ToolCall.mk "call0" "function" "get_weather" "\x7b\x7d" :: [] ∧
     (process_chat_streaming probe_parse probe_impl (fun _ => []) (fun _ => "")
       probe_chunks_unknown ["Rec"] [] empty_session "hi").err =
       some ("Unknown tool: " ++ "get_weather")) :=
  ⟨⟨by decide, by decide,
    (C5_unknown_tool_fatal.1 probe_impl "get_weather" (.obj []) empty_session
      (by decide) (by decide)).1⟩,
   ⟨by decide,
    (C5_unknown_tool_fatal.2 probe_parse probe_impl (fun _ => []) (fun _ => "")
      probe_chunks_unknown ["Rec"] [] empty_session "hi"
      (ToolCall.mk "call0" "function" "get_weather" "\x7b\x7d") [] (.obj [])
      (by decide) (by decide) (by decide) (by decide)).1⟩⟩

/-- C1: every turn of process_chat_streaming that runs to completion
yields exactly one event with is_final set, and it is the last event of
the sequence. -/
theorem C1_final_event_unique (parse : String → Option Json)
    (impl : String → Json → ToolOutcome) (planner : Nat → List ToolCall)
    (plannerContent : Nat → String) (ichunks : List Chunk) (rchunks : List String)
    (msgs : List Msg) (sess : Session) (user : String)
    (hdone : (process_chat_streaming parse impl planner plannerContent ichunks rchunks
      msgs sess user).err = none) :
    ∃ es e, (process_chat_streaming parse impl planner plannerContent ichunks rchunks
        msgs sess user).events = es ++ [e] ∧
      e.isFinal = true ∧ ∀ x ∈ es, x.isFinal = false := by
  rw [process_chat_streaming] at hdone ⊢
  rcases htr : initial_transition (finalize_tool_calls parse (assembleToolCalls ichunks)) user
    with _ | _ | _
  · simp only [htr] at hdone ⊢
    rcases herr : (stream_tools_phase parse impl planner plannerContent
        (finalize_tool_calls parse (assembleToolCalls ichunks))
        (msgs ++ [Msg.mk "assistant" (accumulate_content ichunks)
          (finalize_tool_calls parse (assembleToolCalls ichunks)) "" ""]) sess).err with _ | e
    · simp only [herr] at hdone ⊢
      by_cases hex : (stream_tools_phase parse impl planner plannerContent
          (finalize_tool_calls parse (assembleToolCalls ichunks))
          (msgs ++ [Msg.mk "assistant" (accumulate_content ichunks)
            (finalize_tool_calls parse (assembleToolCalls ichunks)) "" ""]) sess).exhausted = true
      · simp [hex] at hdone
      · simp only [Bool.not_eq_true] at hex
        simp only [hex, Bool.false_eq_true, if_neg, ite_false]
        refine ⟨initial_events ichunks ++ (stream_tools_phase parse impl planner plannerContent
            (finalize_tool_calls parse (assembleToolCalls ichunks))
            (msgs ++ [Msg.mk "assistant" (accumulate_content ichunks)
              (finalize_tool_calls parse (assembleToolCalls ichunks)) "" ""]) sess).events ++
            rec_events rchunks,
          finalEvent (stream_tools_phase parse impl planner plannerContent
            (finalize_tool_calls parse (assembleToolCalls ichunks))
            (msgs ++ [Msg.mk "assistant" (accumulate_content ichunks)
              (finalize_tool_calls parse (assembleToolCalls ichunks)) "" ""]) sess).results,
          ?_, rfl, ?_⟩
        · simp [List.append_assoc]
        · intro x hx
          rcases List.mem_append.mp hx with hx | hx
          · rcases List.mem_append.mp hx with hx | hx
            · exact (benign_initial_events ichunks x hx).1
            · exact (benign_stream_tools_phase parse impl planner plannerContent _ _ _ x hx).1
          · exact (benign_rec_events rchunks x hx).1
    · simp only [herr] at hdone
      simp at hdone
  · simp only [htr] at hdone ⊢
    refine ⟨initial_events ichunks ++ rec_events rchunks, finalEvent [], ?_, rfl, ?_⟩
    · simp [List.append_assoc]
    · intro x hx
      rcases List.mem_append.mp hx with hx | hx
      · exact (benign_initial_events ichunks x hx).1
      · exact (benign_rec_events rchunks x hx).1
  · simp only [htr] at hdone ⊢
    refine ⟨initial_events ichunks, finalEvent [], rfl, rfl, ?_⟩
    intro x hx
    exact (benign_initial_events ichunks x hx).1

/-- Witness for C1 on a concrete completed run with one tool call. -/
theorem C1_final_event_unique_witness :
    (process_chat_streaming probe_parse probe_impl (fun _ => []) (fun _ => "")
      probe_chunks_good ["Rec"] [] empty_session "hi").err = none ∧
    (∃ es e, (process_chat_streaming probe_parse probe_impl (fun _ => []) (fun _ => "")
        probe_chunks_good ["Rec"] [] empty_session "hi").events = es ++ [e] ∧
      e.isFinal = true ∧ ∀ x ∈ es, x.isFinal = false) :=
  ⟨by decide,
    C1_final_event_unique probe_parse probe_impl (fun _ => []) (fun _ => "")
      probe_chunks_good ["Rec"] [] empty_session "hi" (by decide)⟩

/-- C3: with zero assembled tool calls the orchestrator does not always
go straight to FINAL: when the lowercased user text contains recommend it
enters the recommendations phase and streams synthesis chunks first. -/
theorem C3_counterexample :
    initial_transition [] "please recommend a unit" = Phase.recommendations ∧
    initial_transition [] "please recommend a unit" ≠ Phase.final ∧
    (process_chat_streaming probe_parse probe_impl (fun _ => []) (fun _ => "")
      [] ["Rec"] [] empty_session "please recommend a unit").events =
      [responseEvent "recommendations" "Rec", finalEvent []] := by
  refine ⟨by decide, by decide, by decide⟩

/-- C3 (amended): at the end of INITIAL, any assembled tool calls lead to
the tools phase; with none, the turn streams the recommendations phase
first when the lowercased user text contains recommend and otherwise
emits the final event directly after the initial chunks. -/
theorem C3_initial_transition_behaviour :
    (∀ (tc : List ToolCall) (u : String), tc ≠ [] → initial_transition tc u = Phase.tools) ∧
    (∀ (parse : String → Option Json) (impl : String → Json → ToolOutcome)
      (planner : Nat → List ToolCall) (plannerContent : Nat → String)
      (ichunks : List Chunk) (rchunks : List String) (msgs : List Msg)
      (sess : Session) (user : String),
      finalize_tool_calls parse (assembleToolCalls ichunks) = [] →
      strContains (lowerStr user) "recommend" = false →
      (process_chat_streaming parse impl planner plannerContent ichunks rchunks
        msgs sess user).events = initial_events ichunks ++ [finalEvent []] ∧
      (process_chat_streaming parse impl planner plannerContent ichunks rchunks
        msgs sess user).err = none) ∧
    (∀ (parse : String → Option Json) (impl : String → Json → ToolOutcome)
      (planner : Nat → List ToolCall) (plannerContent : Nat → String)
      (ichunks : List Chunk) (rchunks : List String) (msgs : List Msg)
      (sess : Session) (user : String),
      finalize_tool_calls parse (assembleToolCalls ichunks) = [] →
      strContains (lowerStr user) "recommend" = true →
      (process_chat_streaming parse impl planner plannerContent ichunks rchunks
        msgs sess user).events =
        initial_events ichunks ++ rec_events rchunks ++ [finalEvent []] ∧
      (process_chat_streaming parse impl planner plannerContent ichunks rchunks
        msgs sess user).err = none) := by
  refine ⟨?_, ?_, ?_⟩
  · intro tc u htc
    rw [initial_transition]
    simp [htc]
  · intro parse impl planner plannerContent ichunks rchunks msgs sess user hfin hrec
    rw [process_chat_streaming]
    simp only [hfin]
    have htr : initial_transition [] user = Phase.final := by
      rw [initial_transition]
      simp [hrec]
    rw [htr]
    exact ⟨rfl, rfl⟩
  · intro parse impl planner plannerContent ichunks rchunks msgs sess user hfin hrec
    rw [process_chat_streaming]
    simp only [hfin]
    have htr : initial_transition [] user = Phase.recommendations := by
      rw [initial_transition]
      simp [hrec]
    rw [htr]
    exact ⟨by simp [List.append_assoc], rfl⟩

/-- Witness for C3 at concrete runs for both no-tool outcomes. -/
theorem C3_initial_transition_behaviour_witness :
    (([ToolCall.mk "i" "t" "n" "a"] : List ToolCall) ≠ [] ∧
      initial_transition [ToolCall.mk "i" "t" "n" "a"] "hi" = Phase.tools) ∧
    (finalize_tool_calls probe_parse (assembleToolCalls []) = [] ∧
      strContains (lowerStr "hello there") "recommend" = false ∧
      (process_chat_streaming probe_parse probe_impl (fun _ => []) (fun _ => "")
        [] ["Rec"] [] empty_session "hello there").events =
        initial_events [] ++ [finalEvent []]) ∧
    (strContains (lowerStr "please Recommend one") "recommend" = true ∧
      (process_chat_streaming probe_parse probe_impl (fun _ => []) (fun _ => "")
        [] ["Rec"] [] empty_session "please Recommend one").events =
        initial_events [] ++ rec_events ["Rec"] ++ [finalEvent []]) :=
  ⟨⟨by decide, C3_initial_transition_behaviour.1 [ToolCall.mk "i" "t" "n" "a"] "hi" (by decide)⟩,
   ⟨by decide, by decide,
    (C3_initial_transition_behaviour.2.1 probe_parse probe_impl (fun _ => []) (fun _ => "")
      [] ["Rec"] [] empty_session "hello there" (by decide) (by decide)).1⟩,
   ⟨by decide,
    (C3_initial_transition_behaviour.2.2 probe_parse probe_impl (fun _ => []) (fun _ => "")
      [] ["Rec"] [] empty_session "please Recommend one" (by decide) (by decide)).1⟩⟩

/-- C4: a streamed tool call whose accumulated arguments never parse is
dropped silently: the turn still executes the remaining valid call and
reaches its final event, but no tool-error event of any kind is emitted
for the dropped call. -/
theorem C4_counterexample :
    finalize_tool_calls probe_parse (assembleToolCalls probe_chunks_bad_json) =
      [ToolCall.mk "call1" "function" "pulldown_air_l" "\x7bvol\x7d"] ∧
    ((process_chat_streaming probe_parse probe_impl (fun _ => []) (fun _ => "")
      probe_chunks_bad_json ["Rec"] [] empty_session "hi").events.filter
      (fun e => e.etype == "tool_error")) = [] ∧
    (process_chat_streaming probe_parse probe_impl (fun _ => []) (fun _ => "")
      probe_chunks_bad_json ["Rec"] [] empty_session "hi").err = none ∧
    (process_chat_streaming probe_parse probe_impl (fun _ => []) (fun _ => "")
      probe_chunks_bad_json ["Rec"] [] empty_session "hi").events.any
      (fun e => e.isFinal) = true ∧
    (process_chat_streaming probe_parse probe_impl (fun _ => []) (fun _ => "")
      probe_chunks_bad_json ["Rec"] [] empty_session "hi").results.map
      (fun r => r.1) = ["pulldown_air_l"] := by
  refine ⟨by decide, by decide, by decide, by decide, by decide⟩

theorem finalEvent_not_tool_error (results : List (String × Json × Json)) :
    (finalEvent results).etype ≠ "tool_error" := by
  show ("" : String) ≠ "tool_error"
  decide

/-- C4 (amended): finalize_tool_calls keeps exactly the assembled calls
whose argument text (empty defaulting to an empty object literal) parses,
silently dropping the rest, and no run of the orchestrator ever emits a
tool-error event: the dropped call produces no event at all while the
turn continues. -/
theorem C4_bad_json_dropped_silently :
    (∀ (parse : String → Option Json) (dicts : List (Nat × ToolCall)) (r : ToolCall),
      r ∈ finalize_tool_calls parse dicts ↔
        (r ∈ dicts.map Prod.snd ∧
          (parse (if r.args = "" then "\x7b\x7d" else r.args)).isSome = true)) ∧
    (∀ (parse : String → Option Json) (impl : String → Json → ToolOutcome)
      (planner : Nat → List ToolCall) (plannerContent : Nat → String)
      (ichunks : List Chunk) (rchunks : List String) (msgs : List Msg)
      (sess : Session) (user : String),
      ∀ e ∈ (process_chat_streaming parse impl planner plannerContent ichunks rchunks
        msgs sess user).events, e.etype ≠ "tool_error") := by
  constructor
  · intro parse dicts r
    rw [finalize_tool_calls]
    exact List.mem_filter
  · intro parse impl planner plannerContent ichunks rchunks msgs sess user e he
    rw [process_chat_streaming] at he
    rcases htr : initial_transition (finalize_tool_calls parse (assembleToolCalls ichunks)) user
      with _ | _ | _
    · simp only [htr] at he
      rcases herr : (stream_tools_phase parse impl planner plannerContent
          (finalize_tool_calls parse (assembleToolCalls ichunks))
          (msgs ++ [Msg.mk "assistant" (accumulate_content ichunks)
            (finalize_tool_calls parse (assembleToolCalls ichunks)) "" ""]) sess).err with _ | e₀
      · simp only [herr] at he
        by_cases hex : (stream_tools_phase parse impl planner plannerContent
            (finalize_tool_calls parse (assembleToolCalls ichunks))
            (msgs ++ [Msg.mk "assistant" (accumulate_content ichunks)
              (finalize_tool_calls parse (assembleToolCalls ichunks)) "" ""]) sess).exhausted = true
        · simp only [hex, if_pos, ite_true] at he
          rcases List.mem_append.mp he with he | he
          · exact (benign_initial_events ichunks e he).2
          · exact (benign_stream_tools_phase parse impl planner plannerContent _ _ _ e he).2
        · simp only [Bool.not_eq_true] at hex
          simp only [hex, Bool.false_eq_true, if_neg, ite_false] at he
          rcases List.mem_append.mp he with he | he
          · rcases List.mem_append.mp he with he | he
            · rcases List.mem_append.mp he with he | he
              · exact (benign_initial_events ichunks e he).2
              · exact (benign_stream_tools_phase parse impl planner plannerContent _ _ _ e he).2
            · exact (benign_rec_events rchunks e he).2
          · simp only [List.mem_singleton] at he
            subst he
            exact finalEvent_not_tool_error _
      · simp only [herr] at he
        rcases List.mem_append.mp he with he | he
        · exact (benign_initial_events ichunks e he).2
        · exact (benign_stream_tools_phase parse impl planner plannerContent _ _ _ e he).2
    · simp only [htr] at he
      rcases List.mem_append.mp he with he | he
      · rcases List.mem_append.mp he with he | he
        · exact (benign_initial_events ichunks e he).2
        · exact (benign_rec_events rchunks e he).2
      · simp only [List.mem_singleton] at he
        subst he
        exact finalEvent_not_tool_error _
    · simp only [htr] at he
      rcases List.mem_append.mp he with he | he
      · exact (benign_initial_events ichunks e he).2
      · simp only [List.mem_singleton] at he
        subst he
        exact finalEvent_not_tool_error _

/-- Witness for C4 at the concrete bad-JSON run. -/
theorem C4_bad_json_dropped_silently_witness :
    ((ToolCall.mk "call1" "function" "pulldown_air_l" "\x7bvol\x7d" ∈
        (assembleToolCalls probe_chunks_bad_json).map Prod.snd ∧
      (probe_parse (if ("\x7bvol\x7d" : String) = "" then "\x7b\x7d"
        else "\x7bvol\x7d")).isSome = true) ∧
     ToolCall.mk "call1" "function" "pulldown_air_l" "\x7bvol\x7d" ∈
       finalize_tool_calls probe_parse (assembleToolCalls probe_chunks_bad_json)) ∧
    (finalEvent [("pulldown_air_l", probe_args, Json.obj [("total_lpd", .num 42)])] ∈
      (process_chat_streaming probe_parse probe_impl (fun _ => []) (fun _ => "")
        probe_chunks_bad_json ["Rec"] [] empty_session "hi").events ∧
     (finalEvent [("pulldown_air_l", probe_args,
        Json.obj [("total_lpd", .num 42)])]).etype ≠ "tool_error") :=
  ⟨⟨⟨by decide, by decide⟩,
    (C4_bad_json_dropped_silently.1 probe_parse (assembleToolCalls probe_chunks_bad_json)
      (ToolCall.mk "call1" "function" "pulldown_air_l" "\x7bvol\x7d")).mpr
      ⟨by decide, by decide⟩⟩,
   ⟨by decide,
    C4_bad_json_dropped_silently.2 probe_parse probe_impl (fun _ => []) (fun _ => "")
      probe_chunks_bad_json ["Rec"] [] empty_session "hi"
      (finalEvent [("pulldown_air_l", probe_args, Json.obj [("total_lpd", .num 42)])])
      (by decide)⟩⟩

theorem stream_tools_phase_ghost (parse : String → Option Json)
    (impl : String → Json → ToolOutcome) (planner : Nat → List ToolCall)
    (plannerContent : Nat → String) (batch : List ToolCall)
    (messages : List Msg) (session : Session) :
    (stream_tools_phase parse impl planner plannerContent batch messages session).total =
      (tools_loop parse impl planner plannerContent MAX_TOOL_CALLS_PER_TURN 0 batch
        ⟨session, messages, [], [], 0, [], [], none, false⟩).total ∧
    (stream_tools_phase parse impl planner plannerContent batch messages session).execLog =
      (tools_loop parse impl planner plannerContent MAX_TOOL_CALLS_PER_TURN 0 batch
        ⟨session, messages, [], [], 0, [], [], none, false⟩).execLog ∧
    (stream_tools_phase parse impl planner plannerContent batch messages session).planTotals =
      (tools_loop parse impl planner plannerContent MAX_TOOL_CALLS_PER_TURN 0 batch
        ⟨session, messages, [], [], 0, [], [], none, false⟩).planTotals ∧
    (stream_tools_phase parse impl planner plannerContent batch messages session).exhausted =
      (tools_loop parse impl planner plannerContent MAX_TOOL_CALLS_PER_TURN 0 batch
        ⟨session, messages, [], [], 0, [], [], none, false⟩).exhausted := by
  rw [stream_tools_phase]
  split
  · exact ⟨rfl, rfl, rfl, rfl⟩
  · dsimp only
    split
    · exact ⟨rfl, rfl, rfl, rfl⟩
    · exact ⟨rfl, rfl, rfl, rfl⟩

/-- C10: no turn ever performs more than MAX_TOOL_CALLS_PER_TURN tool
invocations; the number of underlying registry executions is bounded by
the invocation counter; the batch-planning loop never runs out of its
fuel bound, so it terminates through its own break conditions for every
planner; and every planning round is consulted strictly below the cap. -/
theorem C10_tool_call_cap (parse : String → Option Json)
    (impl : String → Json → ToolOutcome) (planner : Nat → List ToolCall)
    (plannerContent : Nat → String) (ichunks : List Chunk) (rchunks : List String)
    (msgs : List Msg) (sess : Session) (user : String) :
    (process_chat_streaming parse impl planner plannerContent ichunks rchunks
      msgs sess user).totalToolCalls ≤ MAX_TOOL_CALLS_PER_TURN ∧
    (process_chat_streaming parse impl planner plannerContent ichunks rchunks
      msgs sess user).execLog.length ≤
      (process_chat_streaming parse impl planner plannerContent ichunks rchunks
        msgs sess user).totalToolCalls ∧
    (process_chat_streaming parse impl planner plannerContent ichunks rchunks
      msgs sess user).exhausted = false ∧
    ∀ t ∈ (process_chat_streaming parse impl planner plannerContent ichunks rchunks
      msgs sess user).planTotals, t < MAX_TOOL_CALLS_PER_TURN := by
  have hloop_total := tools_loop_total_le parse impl planner plannerContent
    MAX_TOOL_CALLS_PER_TURN 0 (finalize_tool_calls parse (assembleToolCalls ichunks))
    ⟨sess, msgs ++ [Msg.mk "assistant" (accumulate_content ichunks)
      (finalize_tool_calls parse (assembleToolCalls ichunks)) "" ""],
      [], [], 0, [], [], none, false⟩ (by simp)
  have hloop_ex := tools_loop_no_exhaust parse impl planner plannerContent
    MAX_TOOL_CALLS_PER_TURN 0 (finalize_tool_calls parse (assembleToolCalls ichunks))
    ⟨sess, msgs ++ [Msg.mk "assistant" (accumulate_content ichunks)
      (finalize_tool_calls parse (assembleToolCalls ichunks)) "" ""],
      [], [], 0, [], [], none, false⟩ rfl (by simp)
  have hloop_plan := tools_loop_planTotals parse impl planner plannerContent
    MAX_TOOL_CALLS_PER_TURN 0 (finalize_tool_calls parse (assembleToolCalls ichunks))
    ⟨sess, msgs ++ [Msg.mk "assistant" (accumulate_content ichunks)
      (finalize_tool_calls parse (assembleToolCalls ichunks)) "" ""],
      [], [], 0, [], [], none, false⟩ (by intro t ht; simp at ht)
  have hloop_log := tools_loop_execLog parse impl planner plannerContent
    MAX_TOOL_CALLS_PER_TURN 0 (finalize_tool_calls parse (assembleToolCalls ichunks))
    ⟨sess, msgs ++ [Msg.mk "assistant" (accumulate_content ichunks)
      (finalize_tool_calls parse (assembleToolCalls ichunks)) "" ""],
      [], [], 0, [], [], none, false⟩
  have hghost := stream_tools_phase_ghost parse impl planner plannerContent
    (finalize_tool_calls parse (assembleToolCalls ichunks))
    (msgs ++ [Msg.mk "assistant" (accumulate_content ichunks)
      (finalize_tool_calls parse (assembleToolCalls ichunks)) "" ""]) sess
  rw [process_chat_streaming]
  rcases htr : initial_transition (finalize_tool_calls parse (assembleToolCalls ichunks)) user
    with _ | _ | _
  · simp only [htr]
    rcases herr : (stream_tools_phase parse impl planner plannerContent
        (finalize_tool_calls parse (assembleToolCalls ichunks))
        (msgs ++ [Msg.mk "assistant" (accumulate_content ichunks)
          (finalize_tool_calls parse (assembleToolCalls ichunks)) "" ""]) sess).err with _ | e
    · simp only [herr]
      have hex : (stream_tools_phase parse impl planner plannerContent
          (finalize_tool_calls parse (assembleToolCalls ichunks))
          (msgs ++ [Msg.mk "assistant" (accumulate_content ichunks)
            (finalize_tool_calls parse (assembleToolCalls ichunks)) "" ""]) sess).exhausted =
          false := by
        rw [hghost.2.2.2]
        exact hloop_ex
      simp only [hex, Bool.false_eq_true, if_neg, ite_false]
      refine ⟨?_, ?_, by trivial, ?_⟩
      · show (stream_tools_phase parse impl planner plannerContent _ _ sess).total ≤ _
        rw [hghost.1]
        exact hloop_total
      · show (stream_tools_phase parse impl planner plannerContent _ _ sess).execLog.length ≤
          (stream_tools_phase parse impl planner plannerContent _ _ sess).total
        rw [hghost.1, hghost.2.1]
        simpa using hloop_log
      · show ∀ t ∈ (stream_tools_phase parse impl planner plannerContent _ _ sess).planTotals,
          t < MAX_TOOL_CALLS_PER_TURN
        rw [hghost.2.2.1]
        exact hloop_plan
    · simp only [herr]
      refine ⟨?_, ?_, ?_, ?_⟩
      · show (stream_tools_phase parse impl planner plannerContent _ _ sess).total ≤ _
        rw [hghost.1]
        exact hloop_total
      · show (stream_tools_phase parse impl planner plannerContent _ _ sess).execLog.length ≤
          (stream_tools_phase parse impl planner plannerContent _ _ sess).total
        rw [hghost.1, hghost.2.1]
        simpa using hloop_log
      · show (stream_tools_phase parse impl planner plannerContent _ _ sess).exhausted = false
        rw [hghost.2.2.2]
        exact hloop_ex
      · show ∀ t ∈ (stream_tools_phase parse impl planner plannerContent _ _ sess).planTotals,
          t < MAX_TOOL_CALLS_PER_TURN
        rw [hghost.2.2.1]
        exact hloop_plan
  · simp only [htr]
    exact ⟨by simp, by simp, by trivial, by intro t ht; simp at ht⟩
  · simp only [htr]
    exact ⟨by simp, by simp, by trivial, by intro t ht; simp at ht⟩

/-- Witness for C10 on a concrete run whose planner keeps proposing new
calls: the cap still binds. -/
theorem C10_tool_call_cap_witness :
    (process_chat_streaming probe_parse probe_impl
      (fun _ => [ToolCall.mk "p" "function" "pulldown_air_l" "\x7b\x7d"]) (fun _ => "")
      probe_chunks_good ["Rec"] [] empty_session "hi").totalToolCalls ≤
      MAX_TOOL_CALLS_PER_TURN ∧
    (process_chat_streaming probe_parse probe_impl
      (fun _ => [ToolCall.mk "p" "function" "pulldown_air_l" "\x7b\x7d"]) (fun _ => "")
      probe_chunks_good ["Rec"] [] empty_session "hi").exhausted = false :=
  ⟨(C10_tool_call_cap probe_parse probe_impl
      (fun _ => [ToolCall.mk "p" "function" "pulldown_air_l" "\x7b\x7d"]) (fun _ => "")
      probe_chunks_good ["Rec"] [] empty_session "hi").1,
   (C10_tool_call_cap probe_parse probe_impl
      (fun _ => [ToolCall.mk "p" "function" "pulldown_air_l" "\x7b\x7d"]) (fun _ => "")
      probe_chunks_good ["Rec"] [] empty_session "hi").2.2.1⟩
